import Mathlib

/-!
Verification of the image-humanizer prompt scorer and transformer.

The JavaScript sources (`src/patterns.js`, `src/modifiers.js`, `src/transformer.js`)
are embedded shallowly: prompts are `List Char`, the regex dialect actually used by
the code (case-insensitive literal alternations, `\b` word boundaries, the `\d`
class, one optional-group and negative-lookahead pattern each for the two subject /
location rules, and the `g`-flag `lastIndex` statefulness of `RegExp.test`) is
modelled directly, and `Math.random`-driven selection is an explicit oracle of
naturals.  JavaScript numbers appearing here are integers throughout, so they are
modelled as `Int`/`Nat`.
-/

namespace ImageHumanizer

/-! ### Character classes (JS `\w`, `\s`, case-insensitivity) -/

/-- ASCII lowercasing (what the `/i` flag does on the basic latin letters all
the source's patterns consist of); `Char.toLower`'s guard `65 ≤ n ≤ 90` is
exactly `isUpper`. -/
def low (c : Char) : Char := if c.isUpper then Char.ofNat (c.toNat + 32) else c

/-- JS `\w` = `[A-Za-z0-9_]`; `\b` is a transition between `\w` and non-`\w`. -/
def isWordChar (c : Char) : Bool := c.isAlpha || c.isDigit || c == '_'

def wordOpt : Option Char → Bool
  | none => false
  | some c => isWordChar c

/-- JS `\s` (the ASCII part; prompts are ASCII text). -/
def isSpaceChar (c : Char) : Bool :=
  c == ' ' || c == '\t' || c == '\n' || c == '\r' || c == '\x0b' || c == '\x0c'

/-! ### Pattern tokens

Every pattern in the source is an alternation of simple sequences whose elements
are literal characters or the `\d` class (`f\/\d`, `f\/\d\.\d`), wrapped in `\b`
on both sides.  The `[- ]?` groups of the hyper-realistic rule are expanded into
one alternative per choice. -/

inductive PTok where
  | lit (c : Char)
  | digit
deriving DecidableEq, Repr

/-- Literal tokens are stored lowercase; text is lowercased before comparison. -/
def tokMatches : PTok → Char → Bool
  | .lit p, c => low c == p
  | .digit, c => c.isDigit

def toks (s : String) : List PTok := s.data.map PTok.lit

/-- Match a token sequence at the head of the text, returning the rest. -/
def matchToks : List PTok → List Char → Option (List Char)
  | [], s => some s
  | _ :: _, [] => none
  | p :: ps, c :: cs => if tokMatches p c then matchToks ps cs else none

/-- Try the alternatives in source order at the current position; an alternative
succeeds when its tokens match and a word boundary follows (all alternatives end
in word characters, so the trailing `\b` is "next char absent or non-word").
On success, the length of the first succeeding alternative is returned — the JS
engine commits to the first alternative that lets the rest of the pattern match. -/
def firstAlt (alts : List (List PTok)) (s : List Char) : Option Nat :=
  match alts with
  | [] => none
  | a :: rest =>
    match matchToks a s with
    | some r => if wordOpt r.head? then firstAlt rest s else some a.length
    | none => firstAlt rest s

/-- Search for `\b(alt|…)\b` from the current position (`prevW`: whether the
character before the current position is a word character – all alternatives
start with word characters, so the leading `\b` is "previous char non-word").
Returns the end offset of the first match, as `RegExp.exec` would. -/
def famFind (alts : List (List PTok)) : Bool → List Char → Nat → Option Nat
  | _, [], _ => none
  | prevW, c :: rest, idx =>
    match (if prevW then none else firstAlt alts (c :: rest)) with
    | some n => some (idx + n)
    | none => famFind alts (isWordChar c) rest (idx + 1)

/-- A non-`g` (or freshly created) regex `\b(alt|…)\b` tested against the text. -/
def famTest (alts : List (List PTok)) (s : List Char) : Bool :=
  (famFind alts false s 0).isSome

/-- JS `RegExp.test` for a module-level `/g` regex `\b(alt|…)\b`: the search
starts at the regex object's persistent `lastIndex`; a hit moves `lastIndex` to
the end of the match and answers true, a miss resets it to 0 and answers false. -/
def gTest (alts : List (List PTok)) (s : List Char) (lastIndex : Nat) : Bool × Nat :=
  if lastIndex > s.length then (false, 0)
  else
    let prevW := if lastIndex = 0 then false else wordOpt ((s.drop (lastIndex - 1)).head?)
    match famFind alts prevW (s.drop lastIndex) 0 with
    | some e => (true, lastIndex + e)
    | none => (false, 0)

/-- `String.match` with a `/g` regex `\b(alt|…)\b`: the number of
non-overlapping matches, scanning left to right.  The first argument is the
number of characters of the current match still to be skipped (the scan resumes
after a match's end); callers start it at 0.  Structured this way so the
recursion is structural on the text. -/
def famCount (alts : List (List PTok)) : Nat → Bool → List Char → Nat
  | _, _, [] => 0
  | Nat.succ k, _, c :: rest => famCount alts k (isWordChar c) rest
  | 0, prevW, c :: rest =>
    match (if prevW then none else firstAlt alts (c :: rest)) with
    | some n => 1 + famCount alts (n - 1) (isWordChar c) rest
    | none => famCount alts 0 (isWordChar c) rest

/-! ### The `generic-subject` rule
`/^(a |an )?(woman|man|person|girl|boy|child|people)\b(?! (with|wearing|holding|in their|who))/i` -/

def subjectWords : List (List PTok) :=
  [toks "woman", toks "man", toks "person", toks "girl", toks "boy", toks "child",
   toks "people"]

def subjectRuleLookahead : List (List PTok) :=
  [toks " with", toks " wearing", toks " holding", toks " in their", toks " who"]

/-- A negative-lookahead body: does any alternative match as a prefix here?
(The lookaheads in the source contain no trailing `\b`, so `" in"` also hits
`" inspiring"`.) -/
def lookaheadAny (alts : List (List PTok)) (s : List Char) : Bool :=
  alts.any fun a => (matchToks a s).isSome

/-- Subject word at this position, with trailing `\b` and the negative lookahead. -/
def subjAfterPrefix (s : List Char) : Bool :=
  subjectWords.any fun w =>
    match matchToks w s with
    | some r => !wordOpt r.head? && !lookaheadAny subjectRuleLookahead r
    | none => false

/-- The anchored generic-subject test (position 0 only; the engine backtracks
over the optional `(a |an )?` group). -/
def genericSubjectTest (s : List Char) : Bool :=
  (match matchToks (toks "a ") s with
   | some r => subjAfterPrefix r
   | none => false)
  || (match matchToks (toks "an ") s with
      | some r => subjAfterPrefix r
      | none => false)
  || subjAfterPrefix s

/-! ### The `generic-location` rule
`/\b(in a |at a |at the )?(coffee shop|restaurant|office|room|street|park|beach|forest|city)\b(?! (with|where|that|filled))/i` -/

def locationWords : List (List PTok) :=
  [toks "coffee shop", toks "restaurant", toks "office", toks "room", toks "street",
   toks "park", toks "beach", toks "forest", toks "city"]

def locationRulePrefixes : List (List PTok) := [toks "in a ", toks "at a ", toks "at the "]

def locationRuleLookahead : List (List PTok) :=
  [toks " with", toks " where", toks " that", toks " filled"]

def locWordAt (s : List Char) : Bool :=
  locationWords.any fun w =>
    match matchToks w s with
    | some r => !wordOpt r.head? && !lookaheadAny locationRuleLookahead r
    | none => false

def locAtPos (s : List Char) : Bool :=
  (locationRulePrefixes.any fun p =>
    match matchToks p s with
    | some r => locWordAt r
    | none => false)
  || locWordAt s

def genericLocationTest : Bool → List Char → Bool
  | _, [] => false
  | prevW, c :: rest => (!prevW && locAtPos (c :: rest)) || genericLocationTest (isWordChar c) rest

/-! ### Word lists of the remaining rules (source order preserved) -/

def beautyAlts : List (List PTok) :=
  [toks "beautiful", toks "stunning", toks "gorgeous", toks "amazing", toks "incredible",
   toks "breathtaking", toks "perfect"]

def hyperAlts : List (List PTok) :=
  [toks "hyper-realistic", toks "hyper realistic", toks "hyperrealistic",
   toks "ultra-realistic", toks "ultra realistic", toks "ultrarealistic",
   toks "photo-realistic", toks "photo realistic", toks "photorealistic"]

def resolutionAlts : List (List PTok) :=
  [toks "8k", toks "4k", toks "hd", toks "uhd", toks "high resolution", toks "highly detailed"]

def trendingAlts : List (List PTok) :=
  [toks "trending on artstation", toks "artstation", toks "deviantart", toks "cgsociety",
   toks "unreal engine", toks "octane render"]

def cinematicAlts : List (List PTok) :=
  [toks "cinematic lighting", toks "dramatic lighting", toks "professional lighting",
   toks "studio lighting"]

def portraitAlts : List (List PTok) := [toks "portrait of", toks "headshot of", toks "photo of"]

def styleStackWords : List (List PTok) :=
  [toks "style", toks "aesthetic", toks "vibe", toks "mood", toks "tone", toks "look",
   toks "feel"]

def imperfectionWords : List (List PTok) :=
  [toks "worn", toks "scratched", toks "faded", toks "dusty", toks "dirty", toks "messy",
   toks "wrinkled", toks "weathered", toks "aged", toks "vintage", toks "grain",
   toks "noise", toks "blur", toks "soft focus", toks "imperfect"]

def cameraWords : List (List PTok) :=
  [toks "shot on", toks "filmed", toks "captured", toks "35mm", toks "50mm", toks "85mm",
   toks "f/" ++ [PTok.digit], toks "aperture", toks "leica", toks "canon", toks "nikon",
   toks "hasselblad", toks "kodak", toks "fuji", toks "portra", toks "ektar", toks "tri-x"]

def symmetryAlts : List (List PTok) :=
  [toks "centered", toks "symmetrical", toks "perfectly balanced", toks "in the middle",
   toks "facing camera directly"]

def gazeAlts : List (List PTok) :=
  [toks "looking at camera", toks "staring at camera", toks "eye contact",
   toks "facing forward", toks "looking directly"]

/-- `REALISM_INDICATORS`: matcher alternatives and weight, in source order. -/
def realismFams : List (List (List PTok) × Int) :=
  [([toks "candid", toks "unposed", toks "caught", toks "moment", toks "spontaneous"], 2),
   ([toks "35mm", toks "50mm", toks "85mm",
     toks "f/" ++ [PTok.digit, PTok.lit '.', PTok.digit]], 3),
   ([toks "kodak", toks "fuji", toks "portra", toks "ektar", toks "tri-x", toks "ilford"], 3),
   ([toks "grain", toks "noise", toks "soft focus", toks "slight blur", toks "motion blur"], 2),
   ([toks "worn", toks "weathered", toks "aged", toks "vintage", toks "faded", toks "dusty"], 2),
   ([toks "golden hour", toks "overcast", toks "harsh light", toks "mixed lighting"], 2),
   ([toks "wrinkles", toks "pores", toks "freckles", toks "asymmetric", toks "imperfect"], 2),
   ([toks "leica", toks "hasselblad", toks "contax", toks "pentax", toks "mamiya"], 2),
   ([toks "documentary", toks "street photography", toks "photojournalism"], 2)]

/-! ### `analyzePrompt` -/

/-- The persistent `lastIndex` of each module-level `/g` detection regex
(`AI_PRONE_PATTERNS` lives for the process; `RegExp.test` mutates it). -/
structure RState where
  beautifulLI : Nat := 0
  hyperLI : Nat := 0
  resolutionLI : Nat := 0
  trendingLI : Nat := 0
  cinematicLI : Nat := 0
  portraitLI : Nat := 0
  symmetryLI : Nat := 0
  gazeLI : Nat := 0
deriving DecidableEq, Repr

/-- The state at module load (every `lastIndex` is 0). -/
def rstate0 : RState := {}

structure Issue where
  id : List Char
  name : List Char
  description : List Char
  weight : Int
  suggestion : List Char
deriving DecidableEq, Repr

def mkIssue (id name description : String) (weight : Int) (suggestion : String) : Issue :=
  ⟨id.data, name.data, description.data, weight, suggestion.data⟩

def issueGenericSubject : Issue :=
  mkIssue "generic-subject" "Generic subject"
    "Unspecific subject without distinguishing details" 4
    "Add specific details: age, expression, clothing, action, distinguishing features"

def issueGenericLocation : Issue :=
  mkIssue "generic-location" "Generic location"
    "Vague location without atmosphere or specifics" 3
    "Add atmosphere: time of day, weather, condition (worn, modern, cluttered), specific details"

def issueBeautiful : Issue :=
  mkIssue "beautiful-modifier" "Overused beauty modifiers"
    "\"Beautiful\", \"stunning\", \"gorgeous\" lead to over-processed looks" 5
    "Remove or replace with specific qualities: weathered, sun-dappled, candid, lived-in"

def issueHyperRealistic : Issue :=
  mkIssue "hyper-realistic" "Hyper-realistic trap"
    "\"Hyper-realistic\" often produces the opposite effect" 4
    "Use specific camera/film references instead: \"shot on Kodak Portra 400\", \"Leica M6\""

def issueResolution : Issue :=
  mkIssue "8k-4k" "8K/4K resolution spam"
    "Resolution tags rarely help and can trigger over-sharpening" 3
    "Remove. Use film grain, lens characteristics instead for quality"

def issueTrending : Issue :=
  mkIssue "trending-artstation" "Trending/ArtStation clichés"
    "These tags pull toward stylized digital art, not realism" 4
    "Remove for realistic photos. Use photography-specific references instead"

def issueCinematic : Issue :=
  mkIssue "cinematic-lighting" "Generic lighting terms"
    "\"Cinematic lighting\" is vague and overused" 3
    "Be specific: \"golden hour side light\", \"harsh midday sun\", \"overcast soft light\", \"single bare bulb\""

def issuePortraitGeneric : Issue :=
  mkIssue "portrait-generic" "Generic portrait terms"
    "Plain portrait terms lack character" 3
    "Add context: \"candid portrait\", \"environmental portrait\", \"passport-style photo\", \"caught mid-laugh\""

def issueStyleStacking : Issue :=
  mkIssue "style-stacking" "Style keyword stacking"
    "Too many style keywords fight each other" 3
    "Pick one clear style direction instead of stacking multiple"

def issueMissingImperfection : Issue :=
  mkIssue "missing-imperfection" "No imperfections"
    "Perfectly clean prompts yield AI-smooth results" 4
    "Add imperfections: film grain, slight blur, worn surfaces, natural mess"

def issueMissingCamera : Issue :=
  mkIssue "missing-camera" "No camera/lens reference"
    "Missing photography specs leads to generic rendering" 3
    "Add camera specs: \"shot on 35mm f/1.8\", \"Kodak Portra 400\", \"vintage Polaroid\""

def issueSymmetry : Issue :=
  mkIssue "symmetry-trap" "Symmetry/centered composition"
    "Centered, symmetrical compositions feel artificial" 2
    "Use off-center composition, rule of thirds, candid angles"

def issueDirectGaze : Issue :=
  mkIssue "direct-gaze" "Direct camera gaze"
    "Subject staring at camera often looks posed/artificial" 2
    "Try: \"looking away\", \"caught unaware\", \"profile view\", \"looking down at hands\""

structure AResult where
  score : Int
  aiScore : Int
  realismScore : Int
  issues : List Issue
  issueCount : Nat
deriving DecidableEq, Repr

/-- `analyzePrompt(prompt)` from `patterns.js`, with the module-level regex
`lastIndex` state made explicit.  Rules are evaluated in `AI_PRONE_PATTERNS`
order; each matched rule contributes its weight once and one `Issue`;
matched realism indicators add their weight to `realismScore`; then
`rawScore = max(0, aiScore − realismScore)` and
`score = min(100, round(rawScore·5))` — weights are integers, so `Math.round`
is the identity on `rawScore·5`. -/
def analyzePromptSt (st : RState) (prompt : List Char) : AResult × RState :=
  let m1 := genericSubjectTest prompt
  let m2 := genericLocationTest false prompt
  let r3 := gTest beautyAlts prompt st.beautifulLI
  let r4 := gTest hyperAlts prompt st.hyperLI
  let r5 := gTest resolutionAlts prompt st.resolutionLI
  let r6 := gTest trendingAlts prompt st.trendingLI
  let r7 := gTest cinematicAlts prompt st.cinematicLI
  let r8 := gTest portraitAlts prompt st.portraitLI
  let m9 := decide (famCount styleStackWords 0 false prompt > 2)
  let m10 := !famTest imperfectionWords prompt
  let m11 := !famTest cameraWords prompt
  let r12 := gTest symmetryAlts prompt st.symmetryLI
  let r13 := gTest gazeAlts prompt st.gazeLI
  let flags : List (Bool × Issue) :=
    [(m1, issueGenericSubject), (m2, issueGenericLocation), (r3.1, issueBeautiful),
     (r4.1, issueHyperRealistic), (r5.1, issueResolution), (r6.1, issueTrending),
     (r7.1, issueCinematic), (r8.1, issuePortraitGeneric), (m9, issueStyleStacking),
     (m10, issueMissingImperfection), (m11, issueMissingCamera), (r12.1, issueSymmetry),
     (r13.1, issueDirectGaze)]
  let matched := (flags.filter (·.1)).map (·.2)
  let aiScore : Int := (matched.map Issue.weight).sum
  let realismScore : Int :=
    (((realismFams.filter (fun f => famTest f.1 prompt)).map (·.2)).sum)
  let rawScore : Int := max 0 (aiScore - realismScore)
  let score : Int := min 100 (rawScore * 5)
  (⟨score, aiScore, realismScore, matched, matched.length⟩,
   { beautifulLI := r3.2, hyperLI := r4.2, resolutionLI := r5.2, trendingLI := r6.2,
     cinematicLI := r7.2, portraitLI := r8.2, symmetryLI := r12.2, gazeLI := r13.2 })

/-! ### `analyzePrompt` on arbitrary JavaScript values -/

inductive JSValue where
  | str (s : List Char)
  | num (n : Int)
  | boolean (b : Bool)
  | null
  | undef
deriving DecidableEq, Repr

inductive JSErr where
  | typeError
  | invalidInput
deriving DecidableEq, Repr

def JSValue.isStr : JSValue → Bool
  | .str _ => true
  | _ => false

/-- JS ToString, as applied by `RegExp.test` to a non-string argument. -/
def toStringJS : JSValue → List Char
  | .str s => s
  | .num n => (toString n).data
  | .boolean b => (if b then "true" else "false").data
  | .null => "null".data
  | .undef => "undefined".data

/-- `analyzePrompt` applied to an arbitrary value.  For a string the body runs to
completion.  For any other value the first eight rules coerce the argument
(`RegExp.test` applies ToString) and advance their `lastIndex`, and then the
ninth rule, `style-stacking`, evaluates `prompt.match(…)`, which throws a
TypeError — the analysis never reaches the later rules and no result is
produced.  The mutated regex state survives the throw and is returned beside
the outcome. -/
def analyzePromptJS (st : RState) (v : JSValue) : Except JSErr AResult × RState :=
  match v with
  | .str s =>
    let r := analyzePromptSt st s
    (.ok r.1, r.2)
  | _ =>
    let s := toStringJS v
    let r3 := gTest beautyAlts s st.beautifulLI
    let r4 := gTest hyperAlts s st.hyperLI
    let r5 := gTest resolutionAlts s st.resolutionLI
    let r6 := gTest trendingAlts s st.trendingLI
    let r7 := gTest cinematicAlts s st.cinematicLI
    let r8 := gTest portraitAlts s st.portraitLI
    (.error .typeError,
     { beautifulLI := r3.2, hyperLI := r4.2, resolutionLI := r5.2, trendingLI := r6.2,
       cinematicLI := r7.2, portraitLI := r8.2,
       symmetryLI := st.symmetryLI, gazeLI := st.gazeLI })

end ImageHumanizer

namespace ImageHumanizer

/-! ### Claims about the Scorer -/

/-- C1: the claim states that repeated `analyzePrompt(P)` calls return the same
score.  The code violates this: the `/g`-flagged rule regexes are module-level
objects whose `lastIndex` persists across calls, so on the prompt `"beautiful"`
the first call scores 60 (the beauty rule fires, `lastIndex` moves to 9) and
the second call scores 35 (the search now starts at index 9, misses, and only
then resets `lastIndex`).  The spec's determinism statement is clearly the
intent and the stateful `test` a slip, so this is a code bug. -/
theorem analyzePrompt_second_call_differs :
    (analyzePromptSt rstate0 "beautiful".data).1.score = 60 ∧
    (analyzePromptSt (analyzePromptSt rstate0 "beautiful".data).2 "beautiful".data).1.score
      = 35 := by
  constructor <;> rfl

/-- C2 counterexample: `analyzePrompt("")` does not return score 0 — the two
absence predicates (`missing-imperfection`, `missing-camera`) match empty text,
giving `aiScore = 7` and score 35. -/
theorem analyzePrompt_empty_score_ne_zero :
    ¬ ((analyzePromptSt rstate0 []).1.score = 0 ∧ (analyzePromptSt rstate0 []).1.issues = []) := by
  intro h
  exact absurd h.1 (by decide)

/-- C2 amended: on the empty prompt the analyzer returns score 35 and exactly
the two absence issues, `missing-imperfection` and `missing-camera`, in rule
order. -/
theorem analyzePrompt_empty_absence_rules :
    (analyzePromptSt rstate0 []).1.score = 35 ∧
    (analyzePromptSt rstate0 []).1.issues.map Issue.id
      = ["missing-imperfection".data, "missing-camera".data] := by
  constructor <;> rfl

/-- C3: for every prompt and every regex state, the returned score is
`min 100 (max 0 (aiScore − realismScore) · 5)` where `aiScore` is the sum of
the weights of the issues recorded for the matched detection rules and
`realismScore` the sum of the matched realism-indicator weights; the score is
an integer in `[0, 100]`. -/
theorem analyzePrompt_score_formula (st : RState) (p : List Char) :
    (analyzePromptSt st p).1.score =
      min 100 (max 0 ((analyzePromptSt st p).1.aiScore - (analyzePromptSt st p).1.realismScore) * 5)
    ∧ (analyzePromptSt st p).1.aiScore = ((analyzePromptSt st p).1.issues.map Issue.weight).sum
    ∧ (analyzePromptSt st p).1.realismScore =
        ((realismFams.filter (fun f => famTest f.1 p)).map (·.2)).sum
    ∧ 0 ≤ (analyzePromptSt st p).1.score ∧ (analyzePromptSt st p).1.score ≤ 100 := by
  refine ⟨rfl, rfl, rfl, ?_, ?_⟩
  · simp only [analyzePromptSt]
    omega
  · simp only [analyzePromptSt]
    omega

/-- C7 counterexample: on the non-string input `5`, `analyzePrompt` does not
signal an InvalidInput error — it aborts with a TypeError thrown by the
`style-stacking` predicate (`prompt.match` does not exist on a number), after
the regex rules have already coerced the value. -/
theorem analyzePrompt_num_input_typeError :
    (analyzePromptJS rstate0 (.num 5)).1 = .error .typeError ∧
    JSErr.typeError ≠ JSErr.invalidInput := by
  exact ⟨rfl, by decide⟩

/-- C7 amended: for every non-string input, `analyzePrompt` throws a TypeError
from inside the pattern engine (the `style-stacking` predicate), never an
InvalidInput signal; the preceding regex rules coerce the value to its string
form. -/
theorem analyzePrompt_nonstring_throws (st : RState) (v : JSValue) (h : v.isStr = false) :
    (analyzePromptJS st v).1 = .error .typeError := by
  cases v with
  | str s => simp [JSValue.isStr] at h
  | num n => rfl
  | boolean b => rfl
  | null => rfl
  | undef => rfl

theorem analyzePrompt_nonstring_throws_witness :
    (JSValue.num 5).isStr = false ∧
    (analyzePromptJS rstate0 (.num 5)).1 = .error .typeError :=
  ⟨by decide, analyzePrompt_nonstring_throws rstate0 (.num 5) (by decide)⟩

/-- C10: for every string input and any regex state, `analyzePrompt` runs to
completion and returns a result — no rule evaluation can throw on a string. -/
theorem analyzePrompt_string_total (st : RState) (s : List Char) :
    ∃ r st', analyzePromptJS st (.str s) = (.ok r, st') :=
  ⟨(analyzePromptSt st s).1, (analyzePromptSt st s).2, rfl⟩

end ImageHumanizer

namespace ImageHumanizer

/-! ### `modifiers.js` — vocabulary tables -/

def strs (l : List String) : List (List Char) := l.map String.data

def CAMERAS_film : List (List Char) := strs
  ["shot on 35mm film", "shot on Kodak Portra 400", "shot on Kodak Ektar 100",
   "shot on Fuji Pro 400H", "shot on Ilford HP5", "shot on Kodak Tri-X 400",
   "shot on Cinestill 800T", "vintage Polaroid", "instant film photograph",
   "disposable camera photo"]

def CAMERAS_professional : List (List Char) := strs
  ["shot on Leica M6", "shot on Hasselblad 500C", "shot on Contax T2",
   "shot on Mamiya RB67", "shot on Canon AE-1", "shot on Nikon FM2",
   "shot on Pentax K1000", "medium format film", "large format photograph"]

def CAMERAS_modern : List (List Char) := strs
  ["shot on iPhone", "smartphone photo", "DSLR photograph", "mirrorless camera",
   "point and shoot camera"]

def LENSES : List (List Char) := strs
  ["35mm lens", "50mm f/1.4", "50mm f/1.8", "85mm portrait lens", "24mm wide angle",
   "135mm telephoto", "f/2.8 aperture", "f/1.4 shallow depth of field",
   "wide open aperture", "bokeh background", "tilt-shift lens",
   "vintage lens with character"]

def LIGHTING_natural : List (List Char) := strs
  ["golden hour light", "blue hour", "harsh midday sun", "overcast soft light",
   "window light", "dappled sunlight through trees", "backlit silhouette",
   "side lighting", "natural ambient light", "cloudy day diffused light"]

def LIGHTING_artificial : List (List Char) := strs
  ["single bare bulb", "fluorescent office lighting", "tungsten warm light",
   "neon sign glow", "streetlight at night", "mixed color temperature",
   "practical lights in frame", "flash photography", "harsh camera flash",
   "ring light catchlights"]

def LIGHTING_moody : List (List Char) := strs
  ["low key lighting", "chiaroscuro", "Rembrandt lighting", "dramatic shadows",
   "rim light", "lens flare", "light leak"]

def IMPERFECTIONS_film : List (List Char) := strs
  ["film grain", "subtle noise", "light leaks", "dust and scratches",
   "slight overexposure", "underexposed shadows", "color shift", "halation", "vignette"]

def IMPERFECTIONS_focus : List (List Char) := strs
  ["slight motion blur", "soft focus", "out of focus background",
   "shallow depth of field", "slightly out of focus", "focus falloff",
   "subject blur from movement"]

def IMPERFECTIONS_physical : List (List Char) := strs
  ["lens distortion", "chromatic aberration", "barrel distortion",
   "vintage lens flaws", "soft corners", "coma"]

def IMPERFECTIONS_surface : List (List Char) := strs
  ["worn surfaces", "weathered", "scratched", "faded colors", "dusty", "dirty",
   "water stains", "patina", "rust", "peeling paint"]

def HUMAN_DETAILS : List (List Char) := strs
  ["visible pores", "skin texture", "natural wrinkles", "laugh lines", "freckles",
   "moles", "under-eye circles", "stray hairs", "asymmetric features",
   "natural skin tone variation", "subtle redness", "visible veins", "chapped lips",
   "sweat", "goosebumps"]

def COMPOSITION_natural : List (List Char) := strs
  ["off-center composition", "rule of thirds", "negative space", "candid framing",
   "environmental portrait", "unposed", "caught in the moment", "documentary style",
   "street photography"]

def COMPOSITION_angles : List (List Char) := strs
  ["eye level", "slightly below eye level", "three-quarter view", "profile view",
   "over the shoulder", "from behind", "birds eye view", "worms eye view"]

def COMPOSITION_distance : List (List Char) := strs
  ["close-up", "medium shot", "full body", "wide establishing shot",
   "intimate distance", "personal space"]

/-- The current in-memory state of the six vocabulary tables reachable from the
Transformer (each subcategory is one module-level array; `getRandomModifiers`
sorts the array it receives in place, so the stored order can change). -/
structure Tables where
  camerasFilm : List (List Char)
  camerasProfessional : List (List Char)
  camerasModern : List (List Char)
  lenses : List (List Char)
  lightingNatural : List (List Char)
  lightingArtificial : List (List Char)
  lightingMoody : List (List Char)
  imperfectionsFilm : List (List Char)
  imperfectionsFocus : List (List Char)
  imperfectionsPhysical : List (List Char)
  imperfectionsSurface : List (List Char)
  humanDetails : List (List Char)
  compositionNatural : List (List Char)
  compositionAngles : List (List Char)
  compositionDistance : List (List Char)
deriving DecidableEq, Repr

/-- The tables as defined in `modifiers.js`, i.e. at module load. -/
def TABLES0 : Tables :=
  ⟨CAMERAS_film, CAMERAS_professional, CAMERAS_modern, LENSES, LIGHTING_natural,
   LIGHTING_artificial, LIGHTING_moody, IMPERFECTIONS_film, IMPERFECTIONS_focus,
   IMPERFECTIONS_physical, IMPERFECTIONS_surface, HUMAN_DETAILS, COMPOSITION_natural,
   COMPOSITION_angles, COMPOSITION_distance⟩

/-! ### The randomness oracle

`Math.random()` drives two kinds of choices: `Math.floor(Math.random()*k)`
indexing (modelled as one oracle draw taken mod `k`) and the
`sort(() => 0.5 - Math.random())` in-place shuffle, whose resulting order is
engine-defined but a permutation of the input determined by the random values —
modelled as a permutation built from successive oracle draws (`pickPerm`). -/

abbrev Rng := List Nat

def draw (rng : Rng) : Nat × Rng := (rng.headD 0, rng.tail)

/-- Build a permutation of `l` by repeatedly extracting the element at the
oracle-chosen index.  The fuel (first argument) is `l.length` at the top call;
the recursion is structural on it. -/
def pickPermA {α : Type} : Nat → List α → Rng → List α × Rng
  | 0, _, rng => ([], rng)
  | Nat.succ fuel, l, rng =>
    match l with
    | [] => ([], rng)
    | x :: xs =>
      let d := rng.headD 0
      let i := d % (xs.length + 1)
      let sel := (x :: xs).getD i x
      let rest := (x :: xs).eraseIdx i
      let r := pickPermA fuel rest rng.tail
      (sel :: r.1, r.2)

def pickPerm {α : Type} (l : List α) (rng : Rng) : List α × Rng :=
  pickPermA l.length l rng

/-- `getRandomModifiers(category, count)` for an array argument (the only shape
the Transformer and `getSuggestions` pass): `items.sort(…random…)` shuffles the
module-level array in place and `slice(0, count)` copies the first `count`
items.  Returns (selection, the category's new stored order, remaining oracle). -/
def getRandomModifiers (items : List (List Char)) (count : Nat) (rng : Rng) :
    List (List Char) × List (List Char) × Rng :=
  let p := pickPerm items rng
  (p.1.take count, p.1, p.2)

/-! ### `transformer.js` — cleaning -/

/-- Length of the `,?\s*` tail of a strip match at the head of the text.
(`\s*` is greedy but cannot backtrack into a successful match here: a comma is
not a space, so fewer spaces can never be followed by the required context.) -/
def tailLen : List Char → Nat
  | [] => 0
  | c :: r =>
    if c = ',' then 1 + (r.takeWhile isSpaceChar).length
    else ((c :: r).takeWhile isSpaceChar).length

/-- A generic global-replace scanner.  `f` receives its private state, whether
the previous original character is a word character, and the remaining text; a
hit yields (number of characters consumed — always ≥ 1 for the matchers used
here, replacement, new state).  The first argument counts characters of the
current match still to be consumed, so the recursion is structural; callers
start it at 0. -/
def runScanA {σ : Type} (f : σ → Bool → List Char → Option (Nat × List Char × σ)) :
    Nat → σ → Bool → List Char → List Char × σ
  | _, st, _, [] => ([], st)
  | Nat.succ k, st, _, c :: rest => runScanA f k st (isWordChar c) rest
  | 0, st, prevW, c :: rest =>
    match f st prevW (c :: rest) with
    | none =>
      let r := runScanA f 0 st (isWordChar c) rest
      (c :: r.1, r.2)
    | some (n, rep, st') =>
      let r := runScanA f (n - 1) st' (isWordChar c) rest
      (rep ++ r.1, r.2)

def runScan {σ : Type} (f : σ → Bool → List Char → Option (Nat × List Char × σ))
    (st : σ) (s : List Char) : List Char × σ :=
  runScanA f 0 st false s

/-- The matcher of one `cleaned.replace(/\b(alt|…)\b,?\s*​/gi, '')` pass. -/
def stripM (alts : List (List PTok)) : Unit → Bool → List Char → Option (Nat × List Char × Unit) :=
  fun _ prevW s =>
    if prevW then none
    else match firstAlt alts s with
      | some n => some (n + tailLen (s.drop n), [], ())
      | none => none

def stripFam (alts : List (List PTok)) (s : List Char) : List Char :=
  (runScan (stripM alts) () s).1

/-- `/,\s*,/g → ','` (collapse doubled commas). -/
def commaM : Unit → Bool → List Char → Option (Nat × List Char × Unit) :=
  fun _ _ s =>
    match s with
    | c :: r =>
      if c = ',' then
        let sp := (r.takeWhile isSpaceChar).length
        if (r.drop sp).head? = some ',' then some (1 + sp + 1, [','], ()) else none
      else none
    | [] => none

/-- `/\s+/g → ' '` (collapse whitespace runs). -/
def spaceM : Unit → Bool → List Char → Option (Nat × List Char × Unit) :=
  fun _ _ s =>
    match s with
    | c :: r =>
      if isSpaceChar c then some (1 + (r.takeWhile isSpaceChar).length, [' '], ()) else none
    | [] => none

def isCommaSpace (c : Char) : Bool := c == ',' || isSpaceChar c

/-- `/^[,\s]+|[,\s]+$/g → ''` — strip leading and trailing separators. -/
def trimLead (s : List Char) : List Char := s.dropWhile isCommaSpace

def trimTrail (s : List Char) : List Char := (s.reverse.dropWhile isCommaSpace).reverse

/-- `cleanPrompt` from `transformer.js`: the five family strips in source order,
then comma collapse, whitespace collapse, and edge trimming. -/
def cleanPrompt (s : List Char) : List Char :=
  trimTrail (trimLead
    ((runScan spaceM ()
      ((runScan commaM ()
        (stripFam cinematicAlts
          (stripFam beautyAlts
            (stripFam hyperAlts
              (stripFam trendingAlts
                (stripFam resolutionAlts s)))))).1)).1))

end ImageHumanizer

namespace ImageHumanizer

/-! ### `transformer.js` — subject and location enhancement -/

def subjAges : List (List Char) := strs
  ["in her 30s", "in his 40s", "middle-aged", "elderly", "young adult"]

def subjDetails : List (List Char) := strs
  ["with visible laugh lines", "with weathered hands", "with tired eyes",
   "with an asymmetric smile"]

def personTypes : List (List Char) := strs
  ["a tired office worker", "a weathered farmer", "a distracted commuter",
   "a street vendor", "someone caught mid-thought"]

def womanManLookahead : List (List PTok) :=
  [toks " with", toks " wearing", toks " holding", toks " in", toks " who",
   toks " aged", toks " around"]

def personLookahead : List (List PTok) :=
  [toks " with", toks " wearing", toks " holding", toks " in", toks " who"]

/-- The matcher of
`/\ba (woman|man)\b(?! (with|wearing|holding|in|who|aged|around))/gi` with its
function replacement `a ${subject} ${age} ${detail}`: the captured subject
keeps its original spelling, the age and detail are drawn per occurrence
(`Math.floor(Math.random()*5)` / `*4`). -/
def womanManM : Rng → Bool → List Char → Option (Nat × List Char × Rng) :=
  fun rng prevW s =>
    if prevW then none
    else match matchToks (toks "a ") s with
      | none => none
      | some r =>
        match firstAlt [toks "woman", toks "man"] r with
        | none => none
        | some n =>
          if lookaheadAny womanManLookahead (r.drop n) then none
          else
            let capture := r.take n
            let (d1, rng1) := draw rng
            let (d2, rng2) := draw rng1
            let age := subjAges.getD (d1 % 5) []
            let det := subjDetails.getD (d2 % 4) []
            some (2 + n, 'a' :: ' ' :: capture ++ ' ' :: age ++ ' ' :: det, rng2)

/-- The matcher of `/\ba person\b(?! (with|wearing|holding|in|who))/gi`, whose
function replacement swaps the whole phrase for a random occupation phrase. -/
def personM : Rng → Bool → List Char → Option (Nat × List Char × Rng) :=
  fun rng prevW s =>
    if prevW then none
    else match matchToks (toks "a person") s with
      | none => none
      | some r =>
        if wordOpt r.head? then none
        else if lookaheadAny personLookahead r then none
        else
          let (d, rng') := draw rng
          some (8, personTypes.getD (d % 5) [], rng')

/-- `enhanceSubject`: the woman/man replacement pass, then the person pass. -/
def enhanceSubject (s : List Char) (rng : Rng) : List Char × Rng :=
  let r1 := runScan womanManM rng s
  runScan personM r1.2 r1.1

def coffeeShopSpecifics : List (List Char) := strs
  ["a worn wooden table at a busy coffee shop with steamed windows",
   "a quiet corner of a cluttered independent coffee shop",
   "a formica counter at a 24-hour diner"]

def officeSpecifics : List (List Char) := strs
  ["a fluorescent-lit cubicle with papers everywhere",
   "a messy home office with coffee rings on the desk",
   "a sterile open-plan office with harsh lighting"]

def streetSpecifics : List (List Char) := strs
  ["a rain-slicked city street at dusk", "a sun-bleached sidewalk in midday heat",
   "a busy crosswalk during rush hour"]

def parkSpecifics : List (List Char) := strs
  ["a patchy grass park with worn benches", "an overgrown corner of an urban park",
   "a muddy path through a city park after rain"]

/-- The alternatives of `new RegExp('\\b(in a|at a|at the) ' + generic + '\\b', 'gi')`. -/
def locFamAlts (generic : String) : List (List PTok) :=
  [toks ("in a " ++ generic), toks ("at a " ++ generic), toks ("at the " ++ generic)]

/-- Global replace of one location family by `at ${specific}` (the enriched
phrase is drawn once, before the replace, so it is a constant here). -/
def locReplaceM (alts : List (List PTok)) (rep : List Char) :
    Unit → Bool → List Char → Option (Nat × List Char × Unit) :=
  fun _ prevW s =>
    if prevW then none
    else match firstAlt alts s with
      | some n => some (n, rep, ())
      | none => none

/-- One location family of `enhanceLocation`: if the family's regex matches,
draw the enriched phrase and rewrite every occurrence; report whether it fired. -/
def locStep (generic : String) (specifics : List (List Char)) (s : List Char) (rng : Rng) :
    Option (List Char × Rng) :=
  if famTest (locFamAlts generic) s then
    let (d, rng') := draw rng
    let rep := 'a' :: 't' :: ' ' :: specifics.getD (d % 3) []
    some ((runScan (locReplaceM (locFamAlts generic) rep) () s).1, rng')
  else none

/-- `enhanceLocation`: the four location families in `Object.entries` order;
the first whose pattern matches is rewritten and the loop breaks. -/
def enhanceLocation (s : List Char) (rng : Rng) : List Char × Rng :=
  match locStep "coffee shop" coffeeShopSpecifics s rng with
  | some r => r
  | none =>
    match locStep "office" officeSpecifics s rng with
    | some r => r
    | none =>
      match locStep "street" streetSpecifics s rng with
      | some r => r
      | none =>
        match locStep "park" parkSpecifics s rng with
        | some r => r
        | none => (s, rng)

/-- `/\b(woman|man|person|girl|boy|child|people|portrait|face|model|figure)\b/i`. -/
def humanSubjectWords : List (List PTok) :=
  [toks "woman", toks "man", toks "person", toks "girl", toks "boy", toks "child",
   toks "people", toks "portrait", toks "face", toks "model", toks "figure"]

def hasHumanSubject (s : List Char) : Bool := famTest humanSubjectWords s

/-! ### `transformer.js` — modifier building and the main entry points -/

/-- `buildTechnicalModifiers({style, mood})`.  An unrecognized style falls into
the `else` branch (smartphone photo) yet still receives a lens because it is
not the literal string "phone"; an unrecognized mood falls into the `else`
lighting branch (natural).  `parts.filter(Boolean)` drops empty entries. -/
def techCamera (style : String) (rng : Rng) (tb : Tables) :
    List (List Char) × Tables × Rng :=
  if style = "film" then
    let g := getRandomModifiers tb.camerasFilm 1 rng
    ([g.1.headD []], { tb with camerasFilm := g.2.1 }, g.2.2)
  else if style = "digital" then
    let g := getRandomModifiers tb.camerasModern 1 rng
    ([g.1.headD []], { tb with camerasModern := g.2.1 }, g.2.2)
  else
    (["smartphone photo".data], tb, rng)

def techLens (style : String) (acc : List (List Char) × Tables × Rng) :
    List (List Char) × Tables × Rng :=
  if style ≠ "phone" then
    let g := getRandomModifiers acc.2.1.lenses 1 acc.2.2
    (acc.1 ++ [g.1.headD []], { acc.2.1 with lenses := g.2.1 }, g.2.2)
  else acc

def techLighting (mood : String) (acc : List (List Char) × Tables × Rng) :
    List (List Char) × Tables × Rng :=
  if mood = "moody" then
    let g := getRandomModifiers acc.2.1.lightingMoody 1 acc.2.2
    (acc.1 ++ [g.1.headD []], { acc.2.1 with lightingMoody := g.2.1 }, g.2.2)
  else if mood = "harsh" then
    let g := getRandomModifiers acc.2.1.lightingArtificial 1 acc.2.2
    (acc.1 ++ [g.1.headD []], { acc.2.1 with lightingArtificial := g.2.1 }, g.2.2)
  else
    let g := getRandomModifiers acc.2.1.lightingNatural 1 acc.2.2
    (acc.1 ++ [g.1.headD []], { acc.2.1 with lightingNatural := g.2.1 }, g.2.2)

def buildTechnicalModifiers (style mood : String) (rng : Rng) (tb : Tables) :
    List (List Char) × Tables × Rng :=
  let lit := techLighting mood (techLens style (techCamera style rng tb))
  (lit.1.filter (fun m => !m.isEmpty), lit.2.1, lit.2.2)

/-- `buildImperfections(intensity)`: `count` is 3 for "high", 1 for "low" and 2
otherwise (any unrecognized value behaves as "medium"); one film phrase always,
a focus phrase when `count ≥ 2`, a surface phrase when `count ≥ 3`. -/
def buildImperfections (intensity : String) (rng : Rng) (tb : Tables) :
    List (List Char) × Tables × Rng :=
  let count : Nat := if intensity = "high" then 3 else if intensity = "low" then 1 else 2
  let g1 := getRandomModifiers tb.imperfectionsFilm 1 rng
  let tb1 := { tb with imperfectionsFilm := g1.2.1 }
  let st1 := (g1.1, tb1, g1.2.2)
  let st2 :=
    if count ≥ 2 then
      let g2 := getRandomModifiers st1.2.1.imperfectionsFocus 1 st1.2.2
      (st1.1 ++ g2.1, { st1.2.1 with imperfectionsFocus := g2.2.1 }, g2.2.2)
    else st1
  if count ≥ 3 then
    let g3 := getRandomModifiers st2.2.1.imperfectionsSurface 1 st2.2.2
    (st2.1 ++ g3.1, { st2.2.1 with imperfectionsSurface := g3.2.1 }, g3.2.2)
  else st2

structure TransformOptions where
  style : String := "film"
  mood : String := "natural"
  imperfectionLevel : String := "medium"
  preserveOriginal : Bool := false
deriving DecidableEq, Repr

structure TransformResult where
  original : List Char
  transformed : List Char
  originalScore : Int
  newScore : Int
  improvement : Int
  issuesFixed : List (List Char)
  modifiersAdded : List (List Char)
deriving DecidableEq, Repr

/-- The mutable process state the Transformer touches: the randomness oracle,
the vocabulary tables (shuffled in place by selection) and the detection-regex
`lastIndex` state. -/
structure TEnv where
  rng : Rng
  tables : Tables
  rstate : RState
deriving Repr

/-- `transformPrompt(prompt, options)`: analyze, clean (unless
`preserveOriginal`), enhance subject then location, build
technical/imperfection/composition(/human) modifiers, join with ", ",
re-analyze, and report.  No input validation of any kind is performed. -/
def transformPrompt (prompt : List Char) (opts : TransformOptions) (env : TEnv) :
    TransformResult × TEnv :=
  let a1 := analyzePromptSt env.rstate prompt
  let cleaned := if opts.preserveOriginal then prompt else cleanPrompt prompt
  let isHuman := hasHumanSubject prompt
  let e1 := enhanceSubject cleaned env.rng
  let e2 := enhanceLocation e1.1 e1.2
  let tech := buildTechnicalModifiers opts.style opts.mood e2.2 env.tables
  let imps := buildImperfections opts.imperfectionLevel tech.2.2 tech.2.1
  let gcomp := getRandomModifiers imps.2.1.compositionNatural 1 imps.2.2
  let tb3 := { imps.2.1 with compositionNatural := gcomp.2.1 }
  let hum :=
    if isHuman then
      let gh := getRandomModifiers tb3.humanDetails 2 gcomp.2.2
      (gh.1, { tb3 with humanDetails := gh.2.1 }, gh.2.2)
    else ([], tb3, gcomp.2.2)
  let allModifiers := (tech.1 ++ imps.1 ++ gcomp.1 ++ hum.1).filter (fun m => !m.isEmpty)
  let finalPrompt := List.intercalate ", ".data (e2.1 :: allModifiers)
  let a2 := analyzePromptSt a1.2 finalPrompt
  (⟨prompt, finalPrompt, a1.1.score, a2.1.score, a1.1.score - a2.1.score,
    a1.1.issues.map Issue.name, allModifiers⟩,
   ⟨hum.2.2, hum.2.1, a2.2⟩)

/-- `transformPrompt` wrapped in the error interface the spec postulates for
the Transformer: the source has no validation or throw on any string prompt,
so every call returns `.ok`. -/
def transformPromptE (prompt : List Char) (opts : TransformOptions) (env : TEnv) :
    Except JSErr (TransformResult × TEnv) :=
  .ok (transformPrompt prompt opts env)

/-- `humanize(prompt)`: transform with all defaults, keep only the text. -/
def humanize (prompt : List Char) (env : TEnv) : List Char :=
  (transformPrompt prompt {} env).1.transformed

structure Suggestions where
  issues : List Issue
  score : Int
  recCamera : List (List Char)
  recLighting : List (List Char)
  recImperfections : List (List Char)
  recComposition : List (List Char)
  recHumanDetails : Option (List (List Char))
deriving DecidableEq, Repr

/-- `getSuggestions(prompt)`: one analysis plus candidate modifiers — two each
from `CAMERAS.film`, `LIGHTING.natural`, `IMPERFECTIONS.film`,
`COMPOSITION.natural`, and three human details when a human subject is present.
Each selection shuffles the corresponding table in place. -/
def getSuggestions (prompt : List Char) (env : TEnv) : Suggestions × TEnv :=
  let a1 := analyzePromptSt env.rstate prompt
  let isHuman := hasHumanSubject prompt
  let g1 := getRandomModifiers env.tables.camerasFilm 2 env.rng
  let tb1 := { env.tables with camerasFilm := g1.2.1 }
  let g2 := getRandomModifiers tb1.lightingNatural 2 g1.2.2
  let tb2 := { tb1 with lightingNatural := g2.2.1 }
  let g3 := getRandomModifiers tb2.imperfectionsFilm 2 g2.2.2
  let tb3 := { tb2 with imperfectionsFilm := g3.2.1 }
  let g4 := getRandomModifiers tb3.compositionNatural 2 g3.2.2
  let tb4 := { tb3 with compositionNatural := g4.2.1 }
  let hum :=
    if isHuman then
      let g5 := getRandomModifiers tb4.humanDetails 3 g4.2.2
      (some g5.1, { tb4 with humanDetails := g5.2.1 }, g5.2.2)
    else (none, tb4, g4.2.2)
  (⟨a1.1.issues, a1.1.score, g1.1, g2.1, g3.1, g4.1, hum.1⟩, ⟨hum.2.2, hum.2.1, a1.2⟩)

end ImageHumanizer

namespace ImageHumanizer

/-! ### Selection is a permutation: the in-place shuffle never loses a phrase -/

theorem perm_getD_cons_eraseIdx {α : Type} :
    ∀ (l : List α) (i : Nat) (d : α), i < l.length →
      l.Perm (l.getD i d :: l.eraseIdx i) := by
  intro l
  induction l with
  | nil => intro i d h; simp at h
  | cons x xs ih =>
    intro i d h
    cases i with
    | zero =>
      simp only [List.getD_cons_zero, List.eraseIdx_cons_zero]
      exact List.Perm.refl _
    | succ j =>
      have h' : j < xs.length := by simpa using h
      simp only [List.getD_cons_succ, List.eraseIdx_cons_succ]
      exact ((ih j d h').cons x).trans (List.Perm.swap _ _ _)

theorem pickPermA_perm {α : Type} :
    ∀ (fuel : Nat) (l : List α) (rng : Rng), l.length ≤ fuel →
      (pickPermA fuel l rng).1.Perm l := by
  intro fuel
  induction fuel with
  | zero =>
    intro l rng h
    cases l with
    | nil => exact List.Perm.refl _
    | cons x xs => simp at h
  | succ n ih =>
    intro l rng h
    cases l with
    | nil => exact List.Perm.refl _
    | cons x xs =>
      simp only [pickPermA]
      have hi : rng.headD 0 % (xs.length + 1) < (x :: xs).length := by
        simp only [List.length_cons]
        exact Nat.mod_lt _ (Nat.succ_pos _)
      have hlen : ((x :: xs).eraseIdx (rng.headD 0 % (xs.length + 1))).length ≤ n := by
        rw [List.length_eraseIdx_of_lt hi]
        simp only [List.length_cons] at h ⊢
        omega
      exact (((ih _ rng.tail hlen).cons _).trans
        (perm_getD_cons_eraseIdx _ _ x hi).symm)

theorem pickPerm_perm {α : Type} (l : List α) (rng : Rng) : (pickPerm l rng).1.Perm l :=
  pickPermA_perm l.length l rng (Nat.le_refl _)

/-- The new stored order of a category after `getRandomModifiers` is a
permutation of the old one. -/
theorem getRandomModifiers_table_perm (items : List (List Char)) (c : Nat) (rng : Rng) :
    (getRandomModifiers items c rng).2.1.Perm items :=
  pickPerm_perm items rng

/-- Every selected phrase was in the category. -/
theorem getRandomModifiers_sel_mem (items : List (List Char)) (c : Nat) (rng : Rng) :
    ∀ x ∈ (getRandomModifiers items c rng).1, x ∈ items := by
  intro x hx
  exact ((pickPerm_perm items rng).mem_iff).mp (List.take_subset _ _ hx)


/-- Field-wise "same phrases, possibly reordered" on the vocabulary state. -/
structure TablesPerm (a b : Tables) : Prop where
  camerasFilm : a.camerasFilm.Perm b.camerasFilm
  camerasProfessional : a.camerasProfessional.Perm b.camerasProfessional
  camerasModern : a.camerasModern.Perm b.camerasModern
  lenses : a.lenses.Perm b.lenses
  lightingNatural : a.lightingNatural.Perm b.lightingNatural
  lightingArtificial : a.lightingArtificial.Perm b.lightingArtificial
  lightingMoody : a.lightingMoody.Perm b.lightingMoody
  imperfectionsFilm : a.imperfectionsFilm.Perm b.imperfectionsFilm
  imperfectionsFocus : a.imperfectionsFocus.Perm b.imperfectionsFocus
  imperfectionsPhysical : a.imperfectionsPhysical.Perm b.imperfectionsPhysical
  imperfectionsSurface : a.imperfectionsSurface.Perm b.imperfectionsSurface
  humanDetails : a.humanDetails.Perm b.humanDetails
  compositionNatural : a.compositionNatural.Perm b.compositionNatural
  compositionAngles : a.compositionAngles.Perm b.compositionAngles
  compositionDistance : a.compositionDistance.Perm b.compositionDistance

theorem TablesPerm.rfl (a : Tables) : TablesPerm a a :=
  ⟨.refl _, .refl _, .refl _, .refl _, .refl _, .refl _, .refl _, .refl _, .refl _, .refl _,
   .refl _, .refl _, .refl _, .refl _, .refl _⟩

theorem TablesPerm.trans {a b c : Tables} (h1 : TablesPerm a b) (h2 : TablesPerm b c) :
    TablesPerm a c :=
  ⟨h1.camerasFilm.trans h2.camerasFilm,
   h1.camerasProfessional.trans h2.camerasProfessional,
   h1.camerasModern.trans h2.camerasModern, h1.lenses.trans h2.lenses,
   h1.lightingNatural.trans h2.lightingNatural,
   h1.lightingArtificial.trans h2.lightingArtificial,
   h1.lightingMoody.trans h2.lightingMoody,
   h1.imperfectionsFilm.trans h2.imperfectionsFilm,
   h1.imperfectionsFocus.trans h2.imperfectionsFocus,
   h1.imperfectionsPhysical.trans h2.imperfectionsPhysical,
   h1.imperfectionsSurface.trans h2.imperfectionsSurface,
   h1.humanDetails.trans h2.humanDetails,
   h1.compositionNatural.trans h2.compositionNatural,
   h1.compositionAngles.trans h2.compositionAngles,
   h1.compositionDistance.trans h2.compositionDistance⟩

theorem techCamera_tables_perm (style : String) (rng : Rng) (tb : Tables) :
    TablesPerm (techCamera style rng tb).2.1 tb := by
  by_cases h1 : style = "film"
  · simp only [techCamera, if_pos h1]
    exact ⟨pickPerm_perm _ _, .refl _, .refl _, .refl _, .refl _, .refl _,
      .refl _, .refl _, .refl _, .refl _, .refl _, .refl _, .refl _, .refl _, .refl _⟩
  · by_cases h2 : style = "digital"
    · simp only [techCamera, if_neg h1, if_pos h2]
      exact ⟨.refl _, .refl _, pickPerm_perm _ _, .refl _, .refl _, .refl _,
        .refl _, .refl _, .refl _, .refl _, .refl _, .refl _, .refl _, .refl _, .refl _⟩
    · simp only [techCamera, if_neg h1, if_neg h2]
      exact TablesPerm.rfl tb

theorem techLens_tables_perm (style : String) (acc : List (List Char) × Tables × Rng) :
    TablesPerm (techLens style acc).2.1 acc.2.1 := by
  by_cases h : style = "phone"
  · simp only [techLens, h, ne_eq, not_true_eq_false, ite_false]
    exact TablesPerm.rfl _
  · simp only [techLens, ne_eq, h, not_false_eq_true, ite_true]
    exact ⟨.refl _, .refl _, .refl _, pickPerm_perm _ _, .refl _, .refl _,
      .refl _, .refl _, .refl _, .refl _, .refl _, .refl _, .refl _, .refl _, .refl _⟩

theorem techLighting_tables_perm (mood : String) (acc : List (List Char) × Tables × Rng) :
    TablesPerm (techLighting mood acc).2.1 acc.2.1 := by
  by_cases h1 : mood = "moody"
  · simp only [techLighting, if_pos h1]
    exact ⟨.refl _, .refl _, .refl _, .refl _, .refl _, .refl _,
      pickPerm_perm _ _, .refl _, .refl _, .refl _, .refl _, .refl _,
      .refl _, .refl _, .refl _⟩
  · by_cases h2 : mood = "harsh"
    · simp only [techLighting, if_neg h1, if_pos h2]
      exact ⟨.refl _, .refl _, .refl _, .refl _, .refl _,
        pickPerm_perm _ _, .refl _, .refl _, .refl _, .refl _, .refl _,
        .refl _, .refl _, .refl _, .refl _⟩
    · simp only [techLighting, if_neg h1, if_neg h2]
      exact ⟨.refl _, .refl _, .refl _, .refl _, pickPerm_perm _ _,
        .refl _, .refl _, .refl _, .refl _, .refl _, .refl _, .refl _, .refl _, .refl _,
        .refl _⟩

theorem buildTechnicalModifiers_tables_perm (style mood : String) (rng : Rng) (tb : Tables) :
    TablesPerm (buildTechnicalModifiers style mood rng tb).2.1 tb := by
  unfold buildTechnicalModifiers
  exact (techLighting_tables_perm mood _).trans
    ((techLens_tables_perm style _).trans (techCamera_tables_perm style rng tb))

theorem buildImperfections_tables_perm (intensity : String) (rng : Rng) (tb : Tables) :
    TablesPerm (buildImperfections intensity rng tb).2.1 tb := by
  unfold buildImperfections
  by_cases h1 : intensity = "high"
  · simp only [h1, if_pos, if_true, ite_true]
    norm_num
    exact ⟨.refl _, .refl _, .refl _, .refl _, .refl _, .refl _, .refl _,
      pickPerm_perm _ _, pickPerm_perm _ _, .refl _,
      pickPerm_perm _ _, .refl _, .refl _, .refl _, .refl _⟩
  · by_cases h2 : intensity = "low"
    · simp only [h1, h2, ite_false, ite_true]
      norm_num
      exact ⟨.refl _, .refl _, .refl _, .refl _, .refl _, .refl _, .refl _,
        pickPerm_perm _ _, .refl _, .refl _, .refl _, .refl _, .refl _,
        .refl _, .refl _⟩
    · simp only [h1, h2, ite_false]
      norm_num
      exact ⟨.refl _, .refl _, .refl _, .refl _, .refl _, .refl _, .refl _,
        pickPerm_perm _ _, pickPerm_perm _ _, .refl _,
        .refl _, .refl _, .refl _, .refl _, .refl _⟩

theorem transformPrompt_tables_perm (p : List Char) (opts : TransformOptions) (env : TEnv) :
    TablesPerm (transformPrompt p opts env).2.tables env.tables := by
  unfold transformPrompt
  have hB :=
    (buildImperfections_tables_perm opts.imperfectionLevel
      (buildTechnicalModifiers opts.style opts.mood
        (enhanceLocation
          (enhanceSubject (if opts.preserveOriginal then p else cleanPrompt p) env.rng).1
          (enhanceSubject (if opts.preserveOriginal then p else cleanPrompt p) env.rng).2).2
        env.tables).2.2
      (buildTechnicalModifiers opts.style opts.mood
        (enhanceLocation
          (enhanceSubject (if opts.preserveOriginal then p else cleanPrompt p) env.rng).1
          (enhanceSubject (if opts.preserveOriginal then p else cleanPrompt p) env.rng).2).2
        env.tables).2.1).trans
    (buildTechnicalModifiers_tables_perm opts.style opts.mood
      (enhanceLocation
        (enhanceSubject (if opts.preserveOriginal then p else cleanPrompt p) env.rng).1
        (enhanceSubject (if opts.preserveOriginal then p else cleanPrompt p) env.rng).2).2
      env.tables)
  by_cases hh : hasHumanSubject p
  · simp only [hh, ite_true]
    exact { hB with
      compositionNatural := (pickPerm_perm _ _).trans hB.compositionNatural,
      humanDetails := (pickPerm_perm _ _).trans hB.humanDetails }
  · simp only [hh, ite_false]
    exact { hB with
      compositionNatural := (pickPerm_perm _ _).trans hB.compositionNatural }

theorem getSuggestions_tables_perm (p : List Char) (env : TEnv) :
    TablesPerm (getSuggestions p env).2.tables env.tables := by
  unfold getSuggestions
  by_cases hh : hasHumanSubject p
  · simp only [hh, ite_true]
    exact { TablesPerm.rfl env.tables with
      camerasFilm := pickPerm_perm _ _,
      lightingNatural := pickPerm_perm _ _,
      imperfectionsFilm := pickPerm_perm _ _,
      compositionNatural := pickPerm_perm _ _,
      humanDetails := pickPerm_perm _ _ }
  · simp only [hh, ite_false]
    exact { TablesPerm.rfl env.tables with
      camerasFilm := pickPerm_perm _ _,
      lightingNatural := pickPerm_perm _ _,
      imperfectionsFilm := pickPerm_perm _ _,
      compositionNatural := pickPerm_perm _ _ }

/-- C6 counterexample: a single `getSuggestions` call reorders the vocabulary —
`getRandomModifiers` shuffles `CAMERAS.film` in place via
`items.sort(() => 0.5 - Math.random())`, so after the call the category is not
the same ordered sequence it was (here the oracle swaps the first two phrases). -/
theorem getSuggestions_reorders_cameras :
    (getSuggestions "x".data ⟨[1], TABLES0, rstate0⟩).2.tables.camerasFilm
      ≠ TABLES0.camerasFilm := by
  decide

/-- C6 amended: neither `transformPrompt` nor `getSuggestions` ever adds or
removes a phrase — after any call each vocabulary category holds a permutation
of the phrases it held before (the in-place shuffle can reorder, never lose). -/
theorem transformer_preserves_table_multisets :
    (∀ p opts env, TablesPerm (transformPrompt p opts env).2.tables env.tables) ∧
    (∀ p env, TablesPerm (getSuggestions p env).2.tables env.tables) :=
  ⟨transformPrompt_tables_perm, getSuggestions_tables_perm⟩

/-- C4 counterexample: with the invalid style `"banana"` (all other fields at
their defaults) `transformPrompt` does not behave as with the documented
default style `"film"`: the camera phrase becomes "smartphone photo". -/
theorem transformPrompt_invalid_style_not_default :
    (transformPrompt "x".data ⟨"banana", "natural", "medium", false⟩
        ⟨[], TABLES0, rstate0⟩).1.transformed
      ≠ (transformPrompt "x".data ⟨"film", "natural", "medium", false⟩
        ⟨[], TABLES0, rstate0⟩).1.transformed := by
  decide

/-- Modelled from the source's fallback branches: what `buildTechnicalModifiers`
computes for a style outside the enumeration — the smartphone-photo camera
phrase (the final `else`) and, because the style is not the literal `"phone"`,
still a lens phrase, then the mood lighting. -/
def technicalForUnrecognizedStyle (mood : String) (rng : Rng) (tb : Tables) :
    List (List Char) × Tables × Rng :=
  let g := getRandomModifiers tb.lenses 1 rng
  let lit := techLighting mood
    (["smartphone photo".data] ++ [g.1.headD []], { tb with lenses := g.2.1 }, g.2.2)
  (lit.1.filter (fun m => !m.isEmpty), lit.2.1, lit.2.2)

/-- C4 amended: an invalid mood behaves as the default "natural" and an invalid
imperfection level behaves as the default "medium", and transformation always
returns normally; but an invalid style does not behave as the default "film":
it takes the smartphone-photo fallback while still drawing a lens. -/
theorem invalid_config_fallback (style mood lvl : String) (rng : Rng) (tb : Tables)
    (hs : style ≠ "film" ∧ style ≠ "digital" ∧ style ≠ "phone")
    (hm : mood ≠ "natural" ∧ mood ≠ "moody" ∧ mood ≠ "harsh")
    (hl : lvl ≠ "low" ∧ lvl ≠ "medium" ∧ lvl ≠ "high") :
    (∀ style', buildTechnicalModifiers style' mood rng tb
      = buildTechnicalModifiers style' "natural" rng tb) ∧
    buildImperfections lvl rng tb = buildImperfections "medium" rng tb ∧
    buildTechnicalModifiers style mood rng tb = technicalForUnrecognizedStyle mood rng tb ∧
    (∀ p po env, transformPromptE p ⟨style, mood, lvl, po⟩ env
      = .ok (transformPrompt p ⟨style, mood, lvl, po⟩ env)) := by
  refine ⟨?_, ?_, ?_, fun p po env => rfl⟩
  · intro style'
    unfold buildTechnicalModifiers techLighting
    simp [hm.2.1, hm.2.2]
  · unfold buildImperfections
    simp [hl.1, hl.2.2]
  · unfold buildTechnicalModifiers technicalForUnrecognizedStyle techCamera techLens
    simp [hs.1, hs.2.1, hs.2.2]

theorem invalid_config_fallback_witness :
    (("banana2" ≠ "film" ∧ "banana2" ≠ "digital" ∧ "banana2" ≠ "phone") ∧
     ("angry" ≠ "natural" ∧ "angry" ≠ "moody" ∧ "angry" ≠ "harsh") ∧
     ("extreme" ≠ "low" ∧ "extreme" ≠ "medium" ∧ "extreme" ≠ "high")) ∧
    buildTechnicalModifiers "banana2" "angry" [] TABLES0
      = technicalForUnrecognizedStyle "angry" [] TABLES0 ∧
    buildImperfections "extreme" [] TABLES0 = buildImperfections "medium" [] TABLES0 :=
  ⟨⟨by decide, by decide, by decide⟩,
   (invalid_config_fallback "banana2" "angry" "extreme" [] TABLES0
      (by decide) (by decide) (by decide)).2.2.1,
   (invalid_config_fallback "banana2" "angry" "extreme" [] TABLES0
      (by decide) (by decide) (by decide)).2.1⟩

/-- A count-1 selection from a non-empty category is exactly one phrase of the
category. -/
theorem getRandomModifiers_one (items : List (List Char)) (rng : Rng) (h : items ≠ []) :
    ∃ a, (getRandomModifiers items 1 rng).1 = [a] ∧ a ∈ items := by
  have hl : (pickPerm items rng).1.length = items.length := (pickPerm_perm items rng).length_eq
  have hne : (pickPerm items rng).1 ≠ [] := by
    intro h0
    apply h
    rw [h0] at hl
    exact (List.length_eq_zero.mp hl.symm)
  obtain ⟨a, t, he⟩ := List.exists_cons_of_ne_nil hne
  refine ⟨a, ?_, ?_⟩
  · simp only [getRandomModifiers, he]
    rfl
  · exact (pickPerm_perm items rng).mem_iff.mp (he ▸ List.mem_cons_self a t)

/-- C8: the imperfection selection is exactly one film phrase for "low", one
film plus one focus phrase for "medium", and film + focus + surface for "high"
(categories taken in their current shuffled state, a permutation of the
`IMPERFECTIONS` table); and `transformPrompt` injects precisely the
`buildImperfections` output between the technical and composition phrases. -/
theorem buildImperfections_level_shapes (rng : Rng) (tb : Tables)
    (h1 : tb.imperfectionsFilm.Perm IMPERFECTIONS_film)
    (h2 : tb.imperfectionsFocus.Perm IMPERFECTIONS_focus)
    (h3 : tb.imperfectionsSurface.Perm IMPERFECTIONS_surface) :
    (∃ a, (buildImperfections "low" rng tb).1 = [a] ∧ a ∈ IMPERFECTIONS_film) ∧
    (∃ a b, (buildImperfections "medium" rng tb).1 = [a, b] ∧
      a ∈ IMPERFECTIONS_film ∧ b ∈ IMPERFECTIONS_focus) ∧
    (∃ a b c, (buildImperfections "high" rng tb).1 = [a, b, c] ∧
      a ∈ IMPERFECTIONS_film ∧ b ∈ IMPERFECTIONS_focus ∧ c ∈ IMPERFECTIONS_surface) ∧
    (∀ p opts env, (transformPrompt p opts env).1.modifiersAdded =
      (let cleaned := if opts.preserveOriginal then p else cleanPrompt p
       let e1 := enhanceSubject cleaned env.rng
       let e2 := enhanceLocation e1.1 e1.2
       let tech := buildTechnicalModifiers opts.style opts.mood e2.2 env.tables
       let imps := buildImperfections opts.imperfectionLevel tech.2.2 tech.2.1
       let gcomp := getRandomModifiers imps.2.1.compositionNatural 1 imps.2.2
       let hum :=
         if hasHumanSubject p then
           (getRandomModifiers
             ({ imps.2.1 with compositionNatural := gcomp.2.1 }).humanDetails 2 gcomp.2.2).1
         else []
       (tech.1 ++ imps.1 ++ gcomp.1 ++ hum).filter (fun m => !m.isEmpty))) := by
  have hfne : tb.imperfectionsFilm ≠ [] := by
    intro h0
    rw [h0] at h1
    exact absurd h1.length_eq (by decide)
  have hfocne : tb.imperfectionsFocus ≠ [] := by
    intro h0
    rw [h0] at h2
    exact absurd h2.length_eq (by decide)
  have hsurfne : tb.imperfectionsSurface ≠ [] := by
    intro h0
    rw [h0] at h3
    exact absurd h3.length_eq (by decide)
  refine ⟨?_, ?_, ?_, ?_⟩
  · obtain ⟨a, ha, hmem⟩ := getRandomModifiers_one tb.imperfectionsFilm rng hfne
    refine ⟨a, ?_, h1.mem_iff.mp hmem⟩
    have e1 : (("low" : String) = "high") = False := eq_false (by decide)
    have e2 : (("low" : String) = "low") = True := eq_true rfl
    simp only [buildImperfections, e1, e2, if_false, if_true, ite_true, ite_false]
    norm_num [ha]
  · obtain ⟨a, ha, hmem⟩ := getRandomModifiers_one tb.imperfectionsFilm rng hfne
    obtain ⟨b, hb, hmemb⟩ := getRandomModifiers_one tb.imperfectionsFocus
      (getRandomModifiers tb.imperfectionsFilm 1 rng).2.2 hfocne
    refine ⟨a, b, ?_, h1.mem_iff.mp hmem, h2.mem_iff.mp hmemb⟩
    have e1 : (("medium" : String) = "high") = False := eq_false (by decide)
    have e2 : (("medium" : String) = "low") = False := eq_false (by decide)
    simp only [buildImperfections, e1, e2, if_false, ite_false]
    norm_num [ha, hb]
  · obtain ⟨a, ha, hmem⟩ := getRandomModifiers_one tb.imperfectionsFilm rng hfne
    obtain ⟨b, hb, hmemb⟩ := getRandomModifiers_one tb.imperfectionsFocus
      (getRandomModifiers tb.imperfectionsFilm 1 rng).2.2 hfocne
    obtain ⟨c, hc, hmemc⟩ := getRandomModifiers_one tb.imperfectionsSurface
      (getRandomModifiers tb.imperfectionsFocus 1
        (getRandomModifiers tb.imperfectionsFilm 1 rng).2.2).2.2 hsurfne
    refine ⟨a, b, c, ?_, h1.mem_iff.mp hmem, h2.mem_iff.mp hmemb, h3.mem_iff.mp hmemc⟩
    have e1 : (("high" : String) = "high") = True := eq_true rfl
    simp only [buildImperfections, e1, if_true, ite_true]
    norm_num [ha, hb, hc]
  · intro p opts env
    by_cases hh : hasHumanSubject p <;>
      simp only [transformPrompt, hh, ite_true, ite_false, Bool.false_eq_true,
        Bool.true_eq_false, if_true, if_false]

theorem buildImperfections_level_shapes_witness :
    (TABLES0.imperfectionsFilm.Perm IMPERFECTIONS_film ∧
     TABLES0.imperfectionsFocus.Perm IMPERFECTIONS_focus ∧
     TABLES0.imperfectionsSurface.Perm IMPERFECTIONS_surface) ∧
    (∃ a b, (buildImperfections "medium" [] TABLES0).1 = [a, b] ∧
      a ∈ IMPERFECTIONS_film ∧ b ∈ IMPERFECTIONS_focus) :=
  ⟨⟨.refl _, .refl _, .refl _⟩,
   (buildImperfections_level_shapes [] TABLES0 (.refl _) (.refl _) (.refl _)).2.1⟩

/-! ### Whitespace-only prompts -/

theorem isSpaceChar_cases {c : Char} (h : isSpaceChar c = true) :
    c = ' ' ∨ c = '\t' ∨ c = '\n' ∨ c = '\r' ∨ c = '\x0b' ∨ c = '\x0c' := by
  simp only [isSpaceChar, Bool.or_eq_true, beq_iff_eq] at h
  tauto

theorem low_space {c : Char} (h : isSpaceChar c = true) : low c = c := by
  rcases isSpaceChar_cases h with h | h | h | h | h | h <;> subst h <;> decide

theorem not_word_space {c : Char} (h : isSpaceChar c = true) : isWordChar c = false := by
  rcases isSpaceChar_cases h with h | h | h | h | h | h <;> subst h <;> decide

theorem not_digit_space {c : Char} (h : isSpaceChar c = true) : c.isDigit = false := by
  rcases isSpaceChar_cases h with h | h | h | h | h | h <;> subst h <;> decide

/-- Whether a pattern starts with a token that only matches word characters
(every alternative of every family in the source does). -/
def altHeadWord : List PTok → Bool
  | PTok.lit c :: _ => isWordChar c
  | PTok.digit :: _ => true
  | [] => false

theorem matchToks_space_head {a : List PTok} {c : Char} {r : List Char}
    (hsp : isSpaceChar c = true) (hw : altHeadWord a = true) :
    matchToks a (c :: r) = none := by
  cases a with
  | nil => simp [altHeadWord] at hw
  | cons t ts =>
    cases t with
    | lit p =>
      have hw' : isWordChar p = true := hw
      have hm : tokMatches (.lit p) c = false := by
        simp only [tokMatches, low_space hsp, beq_eq_false_iff_ne, ne_eq]
        intro hcp
        have hnw := not_word_space hsp
        rw [hcp, hw'] at hnw
        cases hnw
      simp [matchToks, hm]
    | digit =>
      simp [matchToks, tokMatches, not_digit_space hsp]

theorem firstAlt_space {alts : List (List PTok)} {c : Char} {r : List Char}
    (hsp : isSpaceChar c = true) (hw : alts.all altHeadWord = true) :
    firstAlt alts (c :: r) = none := by
  induction alts with
  | nil => rfl
  | cons a as ih =>
    simp only [List.all_cons, Bool.and_eq_true] at hw
    simp only [firstAlt, matchToks_space_head hsp hw.1]
    exact ih hw.2

theorem famFind_space {alts : List (List PTok)} (hw : alts.all altHeadWord = true) :
    ∀ (s : List Char) (pw : Bool) (idx : Nat), s.all isSpaceChar = true →
      famFind alts pw s idx = none := by
  intro s
  induction s with
  | nil => intro pw idx _; rfl
  | cons c r ih =>
    intro pw idx h
    simp only [List.all_cons, Bool.and_eq_true] at h
    cases pw with
    | true =>
      simp only [famFind, if_true]
      exact ih _ _ h.2
    | false =>
      simp only [famFind, if_false, firstAlt_space h.1 hw]
      exact ih _ _ h.2

/-- A scan whose matcher refuses whitespace-headed positions is the identity on
whitespace-only text. -/
theorem runScanA_none_id {σ : Type} {f : σ → Bool → List Char → Option (Nat × List Char × σ)}
    (hf : ∀ (st : σ) (pw : Bool) (c : Char) (r : List Char),
      isSpaceChar c = true → f st pw (c :: r) = none) :
    ∀ (s : List Char) (st : σ) (pw : Bool), s.all isSpaceChar = true →
      runScanA f 0 st pw s = (s, st) := by
  intro s
  induction s with
  | nil => intro st pw _; rfl
  | cons c r ih =>
    intro st pw h
    simp only [List.all_cons, Bool.and_eq_true] at h
    simp only [runScanA, hf st pw c r h.1]
    rw [ih st (isWordChar c) h.2]

/-- With at least as much skip fuel as characters, the scan drops everything. -/
theorem runScanA_skip {σ : Type} {f : σ → Bool → List Char → Option (Nat × List Char × σ)} :
    ∀ (s : List Char) (k : Nat) (st : σ) (pw : Bool), s.length ≤ k →
      runScanA f k st pw s = ([], st) := by
  intro s
  induction s with
  | nil => intro k st pw _; cases k <;> rfl
  | cons c r ih =>
    intro k st pw hk
    cases k with
    | zero => simp at hk
    | succ k' =>
      simp only [runScanA]
      exact ih k' st (isWordChar c) (by simpa using hk)

theorem stripM_space {alts : List (List PTok)} (hw : alts.all altHeadWord = true)
    (st : Unit) (pw : Bool) {c : Char} (r : List Char) (hsp : isSpaceChar c = true) :
    stripM alts st pw (c :: r) = none := by
  unfold stripM
  cases pw with
  | true => simp
  | false => simp [firstAlt_space hsp hw]

theorem stripFam_space_id {alts : List (List PTok)} (hw : alts.all altHeadWord = true)
    {s : List Char} (h : s.all isSpaceChar = true) : stripFam alts s = s := by
  unfold stripFam runScan
  rw [runScanA_none_id (fun st pw c r hsp => stripM_space hw st pw r hsp) s () false h]

theorem commaM_space (st : Unit) (pw : Bool) {c : Char} (r : List Char)
    (hsp : isSpaceChar c = true) : commaM st pw (c :: r) = none := by
  rcases isSpaceChar_cases hsp with h | h | h | h | h | h <;> subst h <;> rfl

theorem runScan_spaceM_all_space {s : List Char} (h : s.all isSpaceChar = true) (hne : s ≠ []) :
    (runScan spaceM () s).1 = [' '] := by
  cases s with
  | nil => cases hne rfl
  | cons c r =>
    simp only [List.all_cons, Bool.and_eq_true] at h
    have htw : r.takeWhile isSpaceChar = r :=
      List.takeWhile_eq_self_iff.mpr (List.all_eq_true.mp h.2)
    unfold runScan
    simp only [runScanA, spaceM, h.1, if_true, htw]
    rw [runScanA_skip r (1 + r.length - 1) () (isWordChar c) (by omega)]
    rfl

theorem trimLead_all_space {s : List Char} (h : s.all isSpaceChar = true) : trimLead s = [] := by
  unfold trimLead
  rw [List.dropWhile_eq_nil_iff]
  intro x hx
  simp [isCommaSpace, List.all_eq_true.mp h x hx]

/-- `cleanPrompt` sends every whitespace-only prompt (including the empty one)
to the empty string. -/
theorem cleanPrompt_all_space {s : List Char} (h : s.all isSpaceChar = true) :
    cleanPrompt s = [] := by
  unfold cleanPrompt
  rw [stripFam_space_id (by decide) h, stripFam_space_id (by decide) h,
    stripFam_space_id (by decide) h, stripFam_space_id (by decide) h,
    stripFam_space_id (by decide) h]
  have hcomma : (runScan commaM () s).1 = s := by
    unfold runScan
    rw [runScanA_none_id (fun st pw c r hsp => commaM_space st pw r hsp) s () false h]
  rw [hcomma]
  by_cases hne : s = []
  · subst hne; rfl
  · rw [runScan_spaceM_all_space h hne, trimLead_all_space (by decide)]
    rfl

theorem womanManM_space (rng : Rng) (pw : Bool) {c : Char} (r : List Char)
    (hsp : isSpaceChar c = true) : womanManM rng pw (c :: r) = none := by
  unfold womanManM
  cases pw with
  | true => simp
  | false => simp [matchToks_space_head hsp (by decide : altHeadWord (toks "a ") = true)]

theorem personM_space (rng : Rng) (pw : Bool) {c : Char} (r : List Char)
    (hsp : isSpaceChar c = true) : personM rng pw (c :: r) = none := by
  unfold personM
  cases pw with
  | true => simp
  | false =>
    simp [matchToks_space_head hsp (by decide : altHeadWord (toks "a person") = true)]

theorem enhanceSubject_space_id {s : List Char} (rng : Rng) (h : s.all isSpaceChar = true) :
    enhanceSubject s rng = (s, rng) := by
  unfold enhanceSubject runScan
  rw [runScanA_none_id (fun st pw c r hsp => womanManM_space st pw r hsp) s rng false h]
  exact runScanA_none_id (fun st pw c r hsp => personM_space st pw r hsp) s rng false h

theorem enhanceLocation_space_id {s : List Char} (rng : Rng) (h : s.all isSpaceChar = true) :
    enhanceLocation s rng = (s, rng) := by
  unfold enhanceLocation locStep
  rw [show famTest (locFamAlts "coffee shop") s = false from by
      unfold famTest; rw [famFind_space (by decide) s false 0 h]; rfl,
    show famTest (locFamAlts "office") s = false from by
      unfold famTest; rw [famFind_space (by decide) s false 0 h]; rfl,
    show famTest (locFamAlts "street") s = false from by
      unfold famTest; rw [famFind_space (by decide) s false 0 h]; rfl,
    show famTest (locFamAlts "park") s = false from by
      unfold famTest; rw [famFind_space (by decide) s false 0 h]; rfl]
  rfl

/-- C5 counterexample: on the whitespace-only prompt `" "` (default config),
`transformPrompt` does not signal anything — it returns a normal result whose
transformed text is exactly the modifier-only string. -/
theorem transformPrompt_whitespace_returns_result :
    transformPromptE " ".data {} ⟨[], TABLES0, rstate0⟩ ≠ .error .invalidInput ∧
    (transformPrompt " ".data {} ⟨[], TABLES0, rstate0⟩).1.transformed =
      (", shot on 35mm film, 35mm lens, golden hour light, film grain, " ++
       "slight motion blur, off-center composition").data := by
  exact ⟨by simp [transformPromptE], by decide⟩

/-- C5 amended: `transformPrompt` never validates its prompt.  On an empty or
whitespace-only prompt it returns normally, with the original echoed back and
the transformed text equal to the comma-joined modifier list prefixed by the
base text (which is empty after cleaning, or the verbatim whitespace when
`preserveOriginal` is set) — the modifier-only string the spec says must never
be produced. -/
theorem transformPrompt_whitespace_no_error (s : List Char) (opts : TransformOptions)
    (env : TEnv) (h : s.all isSpaceChar = true) :
    transformPromptE s opts env = .ok (transformPrompt s opts env) ∧
    (transformPrompt s opts env).1.original = s ∧
    (transformPrompt s opts env).1.transformed =
      List.intercalate ", ".data
        ((if opts.preserveOriginal then s else []) ::
          (transformPrompt s opts env).1.modifiersAdded) := by
  refine ⟨rfl, rfl, ?_⟩
  by_cases hp : opts.preserveOriginal
  · have e1 := enhanceSubject_space_id (s := s) env.rng h
    have e2 := enhanceLocation_space_id (s := s) env.rng h
    simp only [transformPrompt, hp, ite_true, e1, e2]
  · have hclean := cleanPrompt_all_space h
    have e1 := enhanceSubject_space_id (s := ([] : List Char)) env.rng (by rfl)
    have e2 := enhanceLocation_space_id (s := ([] : List Char)) env.rng (by rfl)
    simp only [transformPrompt, hp, ite_false, hclean, e1, e2, Bool.false_eq_true, if_false]

theorem transformPrompt_whitespace_no_error_witness :
    (" ".data.all isSpaceChar = true) ∧
    (transformPrompt " ".data {} ⟨[], TABLES0, rstate0⟩).1.transformed =
      List.intercalate ", ".data
        ((if ({} : TransformOptions).preserveOriginal then " ".data else []) ::
          (transformPrompt " ".data {} ⟨[], TABLES0, rstate0⟩).1.modifiersAdded) :=
  ⟨by decide,
   (transformPrompt_whitespace_no_error " ".data {} ⟨[], TABLES0, rstate0⟩ (by decide)).2.2⟩

/-! ### No standalone "8k" survives the transformation -/

theorem word_of_low_word {c : Char} (h : isWordChar (low c) = true) : isWordChar c = true := by
  by_cases hu : c.isUpper
  · simp [isWordChar, Char.isAlpha, hu]
  · unfold low at h
    rw [if_neg hu] at h
    exact h

/-- The word-character flag after scanning a prefix (`pw` when it is empty). -/
def wlastB (pw : Bool) : List Char → Bool
  | [] => pw
  | c :: r => wlastB (isWordChar c) r

/-- A standalone, case-insensitive "8k" begins at this position (`pw`: whether
the preceding original character is a word character). -/
def standHere (pw : Bool) : List Char → Bool
  | c :: d :: rest => !pw && (low c == '8') && (low d == 'k') && !wordOpt rest.head?
  | _ => false

def okAfterB : Bool → List Char → Bool
  | _, [] => true
  | pw, c :: rest => !standHere pw (c :: rest) && okAfterB (isWordChar c) rest

/-- The text contains no word-bounded, case-insensitive "8k" occurrence. -/
def noStandalone8k (s : List Char) : Bool := okAfterB false s

theorem wlastB_append (a : List Char) : ∀ (pw : Bool) (b : List Char),
    wlastB pw (a ++ b) = wlastB (wlastB pw a) b := by
  induction a with
  | nil => intro pw b; rfl
  | cons c a' ih => intro pw b; exact ih (isWordChar c) b

theorem wlastB_get {l : List Char} : ∀ (k : Nat) (c : Char) (pw : Bool), l[k]? = some c →
    wlastB pw (l.take (k + 1)) = isWordChar c := by
  induction l with
  | nil => intro k c pw h; simp at h
  | cons x xs ih =>
    intro k c pw h
    cases k with
    | zero =>
      simp only [List.getElem?_cons_zero, Option.some.injEq] at h
      subst h
      rfl
    | succ k' =>
      simp only [List.getElem?_cons_succ] at h
      exact ih k' c (isWordChar x) h

theorem okAfterB_decomp (a : List Char) : ∀ (pw : Bool) (b : List Char),
    okAfterB pw (a ++ b) = true → okAfterB (wlastB pw a) b = true := by
  induction a with
  | nil => intro pw b h; exact h
  | cons c a' ih =>
    intro pw b h
    simp only [List.cons_append, okAfterB, Bool.and_eq_true] at h
    exact ih (isWordChar c) b h.2

theorem okAfterB_indep {b : List Char} (hb : ∀ x, b.head? = some x → ¬ low x = '8')
    (p q : Bool) : okAfterB p b = okAfterB q b := by
  cases b with
  | nil => rfl
  | cons c r =>
    have hc : (low c == '8') = false :=
      beq_eq_false_iff_ne.mpr (hb c rfl)
    cases r with
    | nil => rfl
    | cons d r' =>
      simp [okAfterB, standHere, hc]

theorem okAfterB_append_no8 (rep : List Char) : ∀ (pw : Bool) (X : List Char), rep ≠ [] →
    (∀ x ∈ rep, ¬ low x = '8') → okAfterB (wordOpt rep.getLast?) X = true →
    okAfterB pw (rep ++ X) = true := by
  induction rep with
  | nil => intro pw X hne _ _; exact absurd rfl hne
  | cons r0 rep' ih =>
    intro pw X hne h8 hX
    have h0 : (low r0 == '8') = false :=
      beq_eq_false_iff_ne.mpr (h8 r0 (List.mem_cons_self _ _))
    cases rep' with
    | nil =>
      cases X with
      | nil => simp [okAfterB, standHere]
      | cons x xs =>
        show okAfterB pw ([r0] ++ x :: xs) = true
        rw [List.singleton_append, okAfterB, Bool.and_eq_true]
        exact ⟨by simp [standHere, h0], by simpa [List.getLast?, wordOpt] using hX⟩
    | cons r1 rep'' =>
      show okAfterB pw ((r0 :: r1 :: rep'') ++ X) = true
      rw [List.cons_append, okAfterB, Bool.and_eq_true]
      refine ⟨by simp [standHere, h0], ?_⟩
      exact ih (isWordChar r0) X (by simp)
        (fun x hx => h8 x (List.mem_cons_of_mem _ hx))
        (by simpa [List.getLast?_cons_cons] using hX)

theorem okAfterB_append_nonword_right (a : List Char) :
    ∀ (pw : Bool) (d : List Char), (∀ x ∈ d, isWordChar x = false) →
      okAfterB pw (a ++ d) = true → okAfterB pw a = true := by
  induction a with
  | nil => intro pw d _ _; rfl
  | cons c a' ih =>
    intro pw d hd h
    rw [List.cons_append, okAfterB, Bool.and_eq_true] at h
    rw [okAfterB, Bool.and_eq_true]
    refine ⟨?_, ih (isWordChar c) d hd h.2⟩
    have h1 := h.1
    cases a' with
    | nil => rfl
    | cons d2 a'' =>
      cases a'' with
      | nil =>
        simp only [standHere] at h1 ⊢
        cases d with
        | nil => simpa [wordOpt] using h1
        | cons e d' =>
          have he : isWordChar e = false := hd e (List.mem_cons_self _ _)
          simp only [List.cons_append, List.nil_append, List.head?_cons] at h1
          simpa [wordOpt, he] using h1
      | cons d3 a''' => simpa [standHere] using h1

theorem okAfterB_sep_cons {X : List Char} (w : Bool) (hX : okAfterB false X = true) :
    okAfterB w (',' :: ' ' :: X) = true := by
  have h8c : (low ',' == '8') = false := by decide
  have h8s : (low ' ' == '8') = false := by decide
  cases X with
  | nil => simp [okAfterB, standHere, h8c, h8s]
  | cons x xs =>
    rw [okAfterB, Bool.and_eq_true]
    refine ⟨by simp [standHere, h8c], ?_⟩
    rw [okAfterB, Bool.and_eq_true]
    refine ⟨by simp [standHere, h8s], ?_⟩
    simpa [isWordChar] using hX

/-- Gluing a text and a continuation that starts with a non-word character:
no new standalone occurrence can appear at the junction. -/
theorem okAfterB_append_glue (a : List Char) :
    ∀ (pw : Bool) (b : List Char), (∀ x ∈ b.head?, isWordChar x = false) →
      okAfterB pw a = true → okAfterB (wlastB pw a) b = true →
      okAfterB pw (a ++ b) = true := by
  induction a with
  | nil => intro pw b _ _ hb; exact hb
  | cons c a' ih =>
    intro pw b hbh ha hb
    rw [okAfterB, Bool.and_eq_true] at ha
    rw [List.cons_append, okAfterB, Bool.and_eq_true]
    refine ⟨?_, ih (isWordChar c) b hbh ha.2 hb⟩
    cases a' with
    | nil =>
      cases b with
      | nil => rfl
      | cons e b2 =>
        have he : isWordChar e = false := hbh e rfl
        have hek : (low e == 'k') = false := by
          rw [beq_eq_false_iff_ne]
          intro hk
          have : isWordChar e = true := word_of_low_word (by rw [hk]; decide)
          rw [he] at this
          cases this
        simp [standHere, hek]
    | cons d a'' =>
      have h1 := ha.1
      cases a'' with
      | nil =>
        simp only [standHere] at h1 ⊢
        cases b with
        | nil => simpa using h1
        | cons e b2 =>
          have he : isWordChar e = false := hbh e rfl
          simp only [List.cons_append, List.nil_append, List.head?_cons] at h1 ⊢
          simpa [wordOpt, he] using h1
      | cons d3 a''' => simpa [standHere] using h1

theorem okAfterB_intercalate (parts : List (List Char)) :
    ∀ (t : List Char), okAfterB false t = true →
      (∀ m ∈ parts, okAfterB false m = true) →
      okAfterB false (List.intercalate [',', ' '] (t :: parts)) = true := by
  induction parts with
  | nil =>
    intro t ht _
    simpa [List.intercalate] using ht
  | cons m ms ih =>
    intro t ht hp
    have hrec : List.intercalate [',', ' '] (t :: m :: ms)
        = t ++ ([',', ' '] ++ List.intercalate [',', ' '] (m :: ms)) := by
      simp [List.intercalate, List.intersperse]
    rw [hrec]
    refine okAfterB_append_glue t false _ ?_ ht ?_
    · intro x hx
      simp only [List.cons_append, List.head?_cons, Option.mem_def, Option.some.injEq] at hx
      subst hx
      decide
    · exact okAfterB_sep_cons _
        (ih m (hp m (List.mem_cons_self _ _)) (fun x hx => hp x (List.mem_cons_of_mem _ hx)))

theorem runScanA_skip_eq {σ : Type} (f : σ → Bool → List Char → Option (Nat × List Char × σ)) :
    ∀ (s : List Char) (k : Nat) (st : σ) (pw : Bool),
      runScanA f k st pw s = runScanA f 0 st (wlastB pw (s.take k)) (s.drop k) := by
  intro s
  induction s with
  | nil => intro k st pw; cases k <;> rfl
  | cons c r ih =>
    intro k st pw
    cases k with
    | zero => rfl
    | succ k' =>
      simp only [runScanA, List.take_succ_cons, List.drop_succ_cons]
      exact ih k' st (isWordChar c)

/-- The safety facts every replacement matcher of the transformer satisfies:
a hit consumes at least one and at most all characters; the replacement
contains no "8", does not start with "k", for a deletion the matcher only
fires after a non-word character, a deletion either ends in a non-word
character or is followed by one (the trailing `\b`), and a non-empty
replacement ends in the same word-class as the text it replaces. -/
def MatcherOK {σ : Type} (f : σ → Bool → List Char → Option (Nat × List Char × σ)) : Prop :=
  ∀ st pw s n rep st', f st pw s = some (n, rep, st') →
    (1 ≤ n ∧ n ≤ s.length) ∧
    (∀ x ∈ rep, ¬ low x = '8') ∧
    (∀ x, rep.head? = some x → ¬ low x = 'k') ∧
    (rep = [] → pw = false) ∧
    (rep = [] → wlastB pw (s.take n) = true → wordOpt (s.drop n).head? = false) ∧
    (rep ≠ [] → wordOpt rep.getLast? = wlastB pw (s.take n))

/-- No matcher of the transformer fires immediately after a word character on
a word character (the leading `\b`, or a separator-only pattern). -/
def MatcherStable {σ : Type} (f : σ → Bool → List Char → Option (Nat × List Char × σ)) : Prop :=
  ∀ (st : σ) (c : Char) (r : List Char), isWordChar c = true → f st true (c :: r) = none

theorem standHere_false_of_not8 {pw : Bool} {c : Char} {X : List Char} (h : ¬ low c = '8') :
    standHere pw (c :: X) = false := by
  cases X <;> simp [standHere, beq_eq_false_iff_ne.mpr h]

theorem standHere_false_of_true {c : Char} {X : List Char} :
    standHere true (c :: X) = false := by
  cases X <;> simp [standHere]

theorem standHere_false_of_headk {pw : Bool} {c y : Char} {ys : List Char}
    (h : ¬ low y = 'k') : standHere pw (c :: y :: ys) = false := by
  simp [standHere, beq_eq_false_iff_ne.mpr h]

theorem standHere_false_of_word_next {pw : Bool} {c d : Char} {r : List Char}
    (h : wordOpt r.head? = true) : standHere pw (c :: d :: r) = false := by
  simp [standHere, h]

/-- After a word character, the scan's output never starts with an "8" when the
remaining text does not start with a word character. -/
theorem scan_head_not8 {σ : Type} {f : σ → Bool → List Char → Option (Nat × List Char × σ)}
    (hok : MatcherOK f) (st : σ) (r : List Char)
    (hr : ∀ x, r.head? = some x → isWordChar x = false) :
    ∀ x, (runScanA f 0 st true r).1.head? = some x → ¬ low x = '8' := by
  cases r with
  | nil => intro x hx; simp [runScanA] at hx
  | cons e r4 =>
    intro x hx
    have he : isWordChar e = false := hr e rfl
    match hf : f st true (e :: r4) with
    | none =>
      simp only [runScanA, hf, List.head?_cons] at hx
      cases hx
      intro h8
      have := word_of_low_word (c := e) (by rw [h8]; decide)
      rw [he] at this
      cases this
    | some (n, rep, st') =>
      have facts := hok st true (e :: r4) n rep st' hf
      have hrep : rep ≠ [] := by
        intro h0
        have := facts.2.2.2.1 h0
        cases this
      simp only [runScanA, hf] at hx
      cases rep with
      | nil => exact absurd rfl hrep
      | cons y ys =>
        simp only [List.cons_append, List.head?_cons] at hx
        cases hx
        exact facts.2.1 x (List.mem_cons_self _ _)

/-- The match case of the scan: the replacement plus the recursively scanned
remainder is safe, given safety of the remainder in the word-class context of
the last consumed character. -/
theorem scan_match_case {σ : Type} {f : σ → Bool → List Char → Option (Nat × List Char × σ)}
    (hok : MatcherOK f) {st st' : σ} {pw : Bool} {c : Char} {rest : List Char}
    {n : Nat} {rep : List Char}
    (hf : f st pw (c :: rest) = some (n, rep, st'))
    (hX : okAfterB (wlastB pw ((c :: rest).take n))
      (runScanA f 0 st' (wlastB pw ((c :: rest).take n)) ((c :: rest).drop n)).1 = true) :
    okAfterB pw (runScanA f 0 st pw (c :: rest)).1 = true := by
  have facts := hok st pw (c :: rest) n rep st' hf
  cases n with
  | zero => exact absurd facts.1.1 (by decide)
  | succ m =>
    simp only [runScanA, hf]
    rw [runScanA_skip_eq]
    simp only [Nat.succ_sub_one]
    simp only [List.take_succ_cons, List.drop_succ_cons] at hX
    have hXctx : okAfterB (wlastB (isWordChar c) (rest.take m))
        (runScanA f 0 st' (wlastB (isWordChar c) (rest.take m)) (rest.drop m)).1 = true := hX
    cases rep with
    | nil =>
      have hpw : pw = false := facts.2.2.2.1 rfl
      subst hpw
      by_cases hwl : wlastB (isWordChar c) (rest.take m) = true
      · have hdropw := facts.2.2.2.2.1 rfl (by
          simpa [List.take_succ_cons] using hwl)
        simp only [List.drop_succ_cons] at hdropw
        rw [hwl] at hXctx
        rw [List.nil_append, hwl]
        rw [okAfterB_indep (b := (runScanA f 0 st' true (rest.drop m)).1)
          (scan_head_not8 hok st' (rest.drop m) (fun x hx => by
            cases hhead : (rest.drop m).head? with
            | none => rw [hhead] at hx; cases hx
            | some y =>
              rw [hhead] at hx
              cases hx
              simpa [wordOpt, hhead] using hdropw)) false true]
        exact hXctx
      · have hwl' : wlastB (isWordChar c) (rest.take m) = false :=
          Bool.not_eq_true _ ▸ (Bool.eq_false_iff.mpr hwl)
        rw [hwl'] at hXctx
        rw [List.nil_append, hwl']
        exact hXctx
    | cons y ys =>
      refine okAfterB_append_no8 (y :: ys) pw _ (by simp) facts.2.1 ?_
      rw [facts.2.2.2.2.2 (by simp)]
      simpa [List.take_succ_cons] using hXctx

/-- The no-match case of the scan: the head character is emitted unchanged and
cannot begin a standalone "8k" in the output, given that the input had no
standalone "8k" here (or, for the resolution family, that the matcher would
have fired on one). -/
theorem scan_nomatch_case {σ : Type} {f : σ → Bool → List Char → Option (Nat × List Char × σ)}
    (hok : MatcherOK f) (hst : MatcherStable f) {st : σ} {pw : Bool} {c : Char}
    {rest : List Char} (hf : f st pw (c :: rest) = none)
    (hcase : low c = '8' → pw = false →
      ∀ d r2, rest = d :: r2 → low d = 'k' → wordOpt r2.head? = true)
    (htail : okAfterB (isWordChar c) (runScanA f 0 st (isWordChar c) rest).1 = true) :
    okAfterB pw (runScanA f 0 st pw (c :: rest)).1 = true := by
  simp only [runScanA, hf]
  rw [okAfterB, Bool.and_eq_true]
  refine ⟨?_, htail⟩
  rw [Bool.not_eq_true']
  by_cases hc8 : low c = '8'
  · cases hpw : pw with
    | true => exact standHere_false_of_true
    | false =>
      have hwc : isWordChar c = true := word_of_low_word (by rw [hc8]; decide)
      rw [hwc]
      cases rest with
      | nil => rfl
      | cons d r2 =>
        match hf2 : f st true (d :: r2) with
        | some (n2, rep2, st2) =>
          have facts2 := hok st true (d :: r2) n2 rep2 st2 hf2
          cases rep2 with
          | nil =>
            have := facts2.2.2.2.1 rfl
            cases this
          | cons y ys =>
            simp only [runScanA, hf2, List.cons_append, List.head?_cons]
            exact standHere_false_of_headk (facts2.2.2.1 y rfl)
        | none =>
          by_cases hdk : low d = 'k'
          · have hr2 := hcase hc8 hpw d r2 rfl hdk
            cases r2 with
            | nil => simp [wordOpt] at hr2
            | cons h r3 =>
              have hh : isWordChar h = true := by simpa [wordOpt] using hr2
              have hwd : isWordChar d = true := word_of_low_word (by rw [hdk]; decide)
              simp only [runScanA, hf2, hwd, hst st h r3 hh]
              exact standHere_false_of_word_next (by simp [wordOpt, hh])
          · simp only [runScanA, hf2]
            exact standHere_false_of_headk hdk
  · exact standHere_false_of_not8 hc8

/-- Any scan with a safe, stable matcher preserves "no standalone 8k". -/
theorem scan_preserves_aux {σ : Type} {f : σ → Bool → List Char → Option (Nat × List Char × σ)}
    (hok : MatcherOK f) (hst : MatcherStable f) :
    ∀ (N : Nat) (s : List Char), s.length ≤ N → ∀ (st : σ) (pw : Bool),
      okAfterB pw s = true → okAfterB pw (runScanA f 0 st pw s).1 = true := by
  intro N
  induction N with
  | zero =>
    intro s hs st pw h
    have : s = [] := List.length_eq_zero.mp (Nat.le_zero.mp hs)
    subst this
    exact h
  | succ N ihN =>
    intro s hs st pw h
    cases s with
    | nil => exact h
    | cons c rest =>
      match hf : f st pw (c :: rest) with
      | some (n, rep, st') =>
        refine scan_match_case hok hf ?_
        have hsplit : okAfterB (wlastB pw ((c :: rest).take n)) ((c :: rest).drop n) = true := by
          have hd := okAfterB_decomp ((c :: rest).take n) pw ((c :: rest).drop n)
          rw [List.take_append_drop] at hd
          exact hd h
        refine ihN _ ?_ _ _ hsplit
        have hlen := (hok st pw (c :: rest) n rep st' hf).1.1
        simp only [List.length_drop, List.length_cons]
        simp only [List.length_cons] at hs
        omega
      | none =>
        refine scan_nomatch_case hok hst hf ?_ ?_
        · intro hc8 hpw d r2 hrest hdk
          subst hrest
          rw [okAfterB, Bool.and_eq_true, Bool.not_eq_true'] at h
          by_contra hw
          have hw' : wordOpt r2.head? = false := by
            cases hww : wordOpt r2.head? with
            | true => exact absurd hww hw
            | false => rfl
          have hcontra : standHere pw (c :: d :: r2) = true := by
            simp [standHere, hpw, hc8, hdk, hw']
          rw [h.1] at hcontra
          cases hcontra
        · rw [okAfterB, Bool.and_eq_true] at h
          refine ihN rest ?_ st (isWordChar c) h.2
          simp only [List.length_cons] at hs
          omega

theorem scan_preserves {σ : Type} {f : σ → Bool → List Char → Option (Nat × List Char × σ)}
    (hok : MatcherOK f) (hst : MatcherStable f) (s : List Char) (st : σ) (pw : Bool)
    (h : okAfterB pw s = true) : okAfterB pw (runScanA f 0 st pw s).1 = true :=
  scan_preserves_aux hok hst s.length s (Nat.le_refl _) st pw h

theorem matchToks_drop (a : List PTok) : ∀ (s r : List Char), matchToks a s = some r →
    r = s.drop a.length := by
  induction a with
  | nil =>
    intro s r h
    simp only [matchToks, Option.some.injEq] at h
    subst h
    rfl
  | cons t ts ih =>
    intro s r h
    cases s with
    | nil => cases h
    | cons c cs =>
      simp only [matchToks] at h
      by_cases ht : tokMatches t c = true
      · rw [if_pos ht] at h
        simpa using ih cs r h
      · rw [if_neg ht] at h
        cases h

theorem matchToks_length (a : List PTok) : ∀ (s r : List Char), matchToks a s = some r →
    s.length = a.length + r.length := by
  induction a with
  | nil =>
    intro s r h
    simp only [matchToks, Option.some.injEq] at h
    subst h
    simp
  | cons t ts ih =>
    intro s r h
    cases s with
    | nil => cases h
    | cons c cs =>
      simp only [matchToks] at h
      by_cases ht : tokMatches t c = true
      · rw [if_pos ht] at h
        have := ih cs r h
        simp only [List.length_cons]
        omega
      · rw [if_neg ht] at h
        cases h

theorem firstAlt_spec {alts : List (List PTok)} : ∀ {s : List Char} {n : Nat},
    firstAlt alts s = some n →
    ∃ a ∈ alts, a.length = n ∧ matchToks a s = some (s.drop n) ∧
      wordOpt (s.drop n).head? = false := by
  induction alts with
  | nil => intro s n h; cases h
  | cons a as ih =>
    intro s n h
    simp only [firstAlt] at h
    match hm : matchToks a s with
    | some r =>
      rw [hm] at h
      dsimp only at h
      by_cases hw : wordOpt r.head? = true
      · rw [if_pos hw] at h
        obtain ⟨b, hb, h1, h2, h3⟩ := ih h
        exact ⟨b, List.mem_cons_of_mem _ hb, h1, h2, h3⟩
      · rw [if_neg hw] at h
        injection h with h
        subst h
        have hr := matchToks_drop a s r hm
        subst hr
        exact ⟨a, List.mem_cons_self _ _, rfl, hm, Bool.eq_false_iff.mpr hw⟩
    | none =>
      rw [hm] at h
      dsimp only at h
      obtain ⟨b, hb, h1, h2, h3⟩ := ih h
      exact ⟨b, List.mem_cons_of_mem _ hb, h1, h2, h3⟩

/-- The word-class of the last token of an alternative (false for `[]`). -/
def altLastWord : List PTok → Bool
  | [] => false
  | [PTok.lit c] => isWordChar c
  | [PTok.digit] => true
  | _ :: ts => altLastWord ts

theorem wlastB_matchToks {a : List PTok} : ∀ (s r : List Char) (pw : Bool),
    matchToks a s = some r → altLastWord a = true →
    wlastB pw (s.take a.length) = true := by
  induction a with
  | nil => intro s r pw _ hl; cases hl
  | cons t ts ih =>
    intro s r pw hm hl
    cases s with
    | nil => cases hm
    | cons c cs =>
      simp only [matchToks] at hm
      by_cases ht : tokMatches t c = true
      · rw [if_pos ht] at hm
        cases ts with
        | nil =>
          simp only [matchToks, Option.some.injEq] at hm
          cases t with
          | lit p =>
            have hp : isWordChar p = true := hl
            have hc : low c = p := by
              simpa [tokMatches] using ht
            have : isWordChar c = true := word_of_low_word (by rw [hc]; exact hp)
            simpa [List.take_succ_cons, wlastB] using this
          | digit =>
            have : isWordChar c = true := by
              simp [isWordChar, Char.isAlphanum]
              simp only [tokMatches] at ht
              tauto
            simpa [List.take_succ_cons, wlastB] using this
        | cons t2 ts' =>
          have hl' : altLastWord (t2 :: ts') = true := by
            cases t <;> exact hl
          simp only [List.length_cons, List.take_succ_cons, wlastB]
          exact ih cs r (isWordChar c) hm hl'
      · rw [if_neg ht] at hm
        cases hm

/-! ### The stripping matchers are safe -/

theorem takeWhile_len_take (p : Char → Bool) :
    ∀ l : List Char, l.take (l.takeWhile p).length = l.takeWhile p := by
  intro l
  induction l with
  | nil => rfl
  | cons c t ih =>
    by_cases hp : p c = true
    · simp [List.takeWhile_cons, hp, List.take_succ_cons, ih]
    · simp [List.takeWhile_cons, hp]

theorem takeWhile_len_le (p : Char → Bool) :
    ∀ l : List Char, (l.takeWhile p).length ≤ l.length := by
  intro l
  induction l with
  | nil => exact Nat.le_refl 0
  | cons c t ih =>
    by_cases hp : p c = true
    · simp only [List.takeWhile_cons, hp, if_true, List.length_cons]
      omega
    · simp [List.takeWhile_cons, hp]

theorem tailLen_le (r : List Char) : tailLen r ≤ r.length := by
  cases r with
  | nil => exact Nat.le_refl 0
  | cons c t =>
    by_cases hc : c = ','
    · simp only [tailLen, if_pos hc, List.length_cons]
      have := takeWhile_len_le isSpaceChar t
      omega
    · simp only [tailLen, if_neg hc]
      exact takeWhile_len_le isSpaceChar (c :: t)

theorem mem_take_tailLen_nonword (r : List Char) :
    ∀ x ∈ r.take (tailLen r), isWordChar x = false := by
  cases r with
  | nil => intro x hx; cases hx
  | cons c t =>
    by_cases hc : c = ','
    · subst hc
      intro x hx
      have ht : tailLen (',' :: t) = (t.takeWhile isSpaceChar).length + 1 := by
        rw [tailLen.eq_def]
        simp [Nat.add_comm]
      rw [ht, List.take_succ_cons, takeWhile_len_take] at hx
      rcases List.mem_cons.mp hx with h | h
      · subst h; decide
      · exact not_word_space (List.mem_takeWhile_imp h)
    · intro x hx
      simp only [tailLen, if_neg hc] at hx
      rw [takeWhile_len_take] at hx
      exact not_word_space (List.mem_takeWhile_imp hx)

theorem wlastB_all_nonword : ∀ (B : List Char) (q : Bool), B ≠ [] →
    (∀ x ∈ B, isWordChar x = false) → wlastB q B = false := by
  intro B
  induction B with
  | nil => intro q h _; exact absurd rfl h
  | cons c t ih =>
    intro q _ hall
    cases t with
    | nil =>
      show isWordChar c = false
      exact hall c (List.mem_cons_self _ _)
    | cons d t' =>
      exact ih (isWordChar c) (by simp) (fun x hx => hall x (List.mem_cons_of_mem _ hx))

theorem wlastB_false_nonword : ∀ (A : List Char), (∀ x ∈ A, isWordChar x = false) →
    wlastB false A = false := by
  intro A
  induction A with
  | nil => intro _; rfl
  | cons c t ih =>
    intro hall
    show wlastB (isWordChar c) t = false
    rw [hall c (List.mem_cons_self _ _)]
    exact ih (fun x hx => hall x (List.mem_cons_of_mem _ hx))

theorem stripM_stable (alts : List (List PTok)) : MatcherStable (stripM alts) := by
  intro st c r _
  rfl

theorem stripM_ok {alts : List (List PTok)} (hne : ∀ a ∈ alts, a ≠ []) :
    MatcherOK (stripM alts) := by
  intro st pw s n rep st' hf
  unfold stripM at hf
  by_cases hpw : pw = true
  · rw [if_pos hpw] at hf; cases hf
  · rw [if_neg hpw] at hf
    match hm : firstAlt alts s with
    | none => rw [hm] at hf; cases hf
    | some m =>
      rw [hm] at hf
      dsimp only at hf
      rw [Option.some.injEq, Prod.mk.injEq, Prod.mk.injEq] at hf
      obtain ⟨h1, h2, _⟩ := hf
      subst h1
      subst h2
      obtain ⟨a, ha, hal, hmt, hwd⟩ := firstAlt_spec hm
      have hlen := matchToks_length a s _ hmt
      have hm1 : 1 ≤ m := by
        rw [← hal]
        exact List.length_pos.mpr (hne a ha)
      have htl := tailLen_le (s.drop m)
      have hdl : (s.drop m).length = s.length - m := List.length_drop m s
      refine ⟨⟨by omega, by omega⟩, ?_, ?_, ?_, ?_, ?_⟩
      · intro x hx; cases hx
      · intro x hx; cases hx
      · intro _; exact Bool.eq_false_iff.mpr hpw
      · intro _ hwl
        match ht : tailLen (s.drop m) with
        | 0 => simpa using hwd
        | Nat.succ t' =>
          rw [ht, List.take_add, wlastB_append] at hwl
          have hBne : (s.drop m).take (t' + 1) ≠ [] := by
            intro h0
            rw [List.take_eq_nil_iff] at h0
            rcases h0 with h0 | h0
            · cases h0
            · rw [h0] at ht
              cases ht
          have hB := wlastB_all_nonword ((s.drop m).take (t' + 1))
            (wlastB pw (s.take m)) hBne
            (fun x hx => mem_take_tailLen_nonword (s.drop m) x (by rw [ht]; exact hx))
          rw [hB] at hwl
          cases hwl
      · intro h; exact absurd rfl h

theorem stripM_res_fires {c d : Char} {r2 : List Char} (hc8 : low c = '8') (hdk : low d = 'k')
    (hw : wordOpt r2.head? = false) :
    stripM resolutionAlts () false (c :: d :: r2) ≠ none := by
  have hm : matchToks (toks "8k") (c :: d :: r2) = some r2 := by
    simp [toks, matchToks, tokMatches, hc8, hdk]
  have hfa : firstAlt resolutionAlts (c :: d :: r2) = some 2 := by
    show firstAlt (toks "8k" :: [toks "4k", toks "hd", toks "uhd",
        toks "high resolution", toks "highly detailed"]) (c :: d :: r2) = some 2
    simp only [firstAlt]
    rw [hm]
    dsimp only
    rw [hw, if_neg (by simp)]
    rfl
  simp [stripM, hfa]

theorem scan_establishes_res_aux :
    ∀ (N : Nat) (s : List Char), s.length ≤ N → ∀ (st : Unit) (pw : Bool),
      okAfterB pw (runScanA (stripM resolutionAlts) 0 st pw s).1 = true := by
  intro N
  induction N with
  | zero =>
    intro s hs st pw
    have : s = [] := List.length_eq_zero.mp (Nat.le_zero.mp hs)
    subst this
    rfl
  | succ N ihN =>
    intro s hs st pw
    cases s with
    | nil => rfl
    | cons c rest =>
      have hok : MatcherOK (stripM resolutionAlts) :=
        stripM_ok (by decide)
      match hf : stripM resolutionAlts st pw (c :: rest) with
      | some (n, rep, st') =>
        refine scan_match_case hok hf ?_
        refine ihN _ ?_ _ _
        have hlen := (hok st pw (c :: rest) n rep st' hf).1.1
        simp only [List.length_drop, List.length_cons]
        simp only [List.length_cons] at hs
        omega
      | none =>
        refine scan_nomatch_case hok (stripM_stable _) hf ?_ ?_
        · intro hc8 hpw d r2 hrest hdk
          subst hrest
          subst hpw
          by_contra hw
          have hw' : wordOpt r2.head? = false := by
            cases hww : wordOpt r2.head? with
            | true => exact absurd hww hw
            | false => rfl
          exact stripM_res_fires hc8 hdk hw' hf
        · refine ihN rest ?_ st (isWordChar c)
          simp only [List.length_cons] at hs
          omega

/-- The first cleaning pass removes every standalone "8k": its regex always
fires on one, and a hit can create no new occurrence. -/
theorem stripFam_res_ok (s : List Char) : okAfterB false (stripFam resolutionAlts s) = true :=
  scan_establishes_res_aux s.length s (Nat.le_refl _) () false

theorem getLast?_append_some {l₁ l₂ : List Char} {x : Char} (h : l₂.getLast? = some x) :
    (l₁ ++ l₂).getLast? = some x := by
  rw [List.getLast?_append, h]
  rfl

theorem commaM_stable : MatcherStable commaM := by
  intro st c r hw
  have hc : ¬ c = ',' := by
    intro h
    subst h
    exact absurd hw (by decide)
  simp [commaM, hc]

theorem commaM_ok : MatcherOK commaM := by
  intro st pw s n rep st' hf
  cases s with
  | nil => cases hf
  | cons c r =>
    simp only [commaM] at hf
    by_cases hc : c = ','
    · rw [if_pos hc] at hf
      by_cases hd : (r.drop (r.takeWhile isSpaceChar).length).head? = some ','
      · rw [if_pos hd] at hf
        rw [Option.some.injEq, Prod.mk.injEq, Prod.mk.injEq] at hf
        obtain ⟨h1, h2, _⟩ := hf
        subst h1
        subst h2
        have hsp := takeWhile_len_le isSpaceChar r
        have hlt : (r.takeWhile isSpaceChar).length < r.length := by
          by_contra hge
          have : r.drop (r.takeWhile isSpaceChar).length = [] :=
            List.drop_eq_nil_iff.mpr (by omega)
          rw [this] at hd
          cases hd
        refine ⟨⟨by omega, by simp only [List.length_cons]; omega⟩, ?_, ?_, ?_, ?_, ?_⟩
        · intro x hx
          rcases List.mem_singleton.mp hx with h
          subst h
          decide
        · intro x hx
          simp only [List.head?_cons, Option.some.injEq] at hx
          subst hx
          decide
        · intro h; exact absurd h (by decide)
        · intro h; exact absurd h (by decide)
        · intro _
          have hget : (c :: r)[1 + (r.takeWhile isSpaceChar).length]? = some ',' := by
            rw [Nat.add_comm, List.getElem?_cons_succ, ← List.head?_drop]
            exact hd
          rw [wlastB_get (1 + (r.takeWhile isSpaceChar).length) ',' pw hget]
          decide
      · rw [if_neg hd] at hf
        cases hf
    · rw [if_neg hc] at hf
      cases hf

theorem spaceM_stable : MatcherStable spaceM := by
  intro st c r hw
  have hc : isSpaceChar c = false := by
    cases hs : isSpaceChar c with
    | false => rfl
    | true =>
      rw [not_word_space hs] at hw
      cases hw
  simp [spaceM, hc]

theorem spaceM_ok : MatcherOK spaceM := by
  intro st pw s n rep st' hf
  cases s with
  | nil => cases hf
  | cons c r =>
    simp only [spaceM] at hf
    by_cases hc : isSpaceChar c = true
    · rw [if_pos hc] at hf
      rw [Option.some.injEq, Prod.mk.injEq, Prod.mk.injEq] at hf
      obtain ⟨h1, h2, _⟩ := hf
      subst h1
      subst h2
      have hsp := takeWhile_len_le isSpaceChar r
      refine ⟨⟨by omega, by simp only [List.length_cons]; omega⟩, ?_, ?_, ?_, ?_, ?_⟩
      · intro x hx
        rcases List.mem_singleton.mp hx with h
        subst h
        decide
      · intro x hx
        simp only [List.head?_cons, Option.some.injEq] at hx
        subst hx
        decide
      · intro h; exact absurd h (by decide)
      · intro h; exact absurd h (by decide)
      · intro _
        rw [Nat.add_comm, List.take_succ_cons, takeWhile_len_take]
        rw [wlastB_all_nonword (c :: r.takeWhile isSpaceChar) pw (by simp) ?_]
        · decide
        · intro x hx
          rcases List.mem_cons.mp hx with h | h
          · subst h; exact not_word_space hc
          · exact not_word_space (List.mem_takeWhile_imp h)
    · rw [if_neg hc] at hf
      cases hf

theorem isCommaSpace_nonword {c : Char} (h : isCommaSpace c = true) : isWordChar c = false := by
  by_cases hc : c = ','
  · subst hc
    decide
  · have h2 : isSpaceChar c = true := by
      simpa [isCommaSpace, beq_eq_false_iff_ne.mpr hc] using h
    exact not_word_space h2

theorem trimLead_ok {s : List Char} (h : okAfterB false s = true) :
    okAfterB false (trimLead s) = true := by
  have h2 := okAfterB_decomp (s.takeWhile isCommaSpace) false (s.dropWhile isCommaSpace)
    (by rw [List.takeWhile_append_dropWhile]; exact h)
  rw [wlastB_false_nonword _
    (fun x hx => isCommaSpace_nonword (List.mem_takeWhile_imp hx))] at h2
  exact h2

theorem trimTrail_ok {s : List Char} (h : okAfterB false s = true) :
    okAfterB false (trimTrail s) = true := by
  have hsplit : trimTrail s ++ (s.reverse.takeWhile isCommaSpace).reverse = s := by
    unfold trimTrail
    rw [← List.reverse_append, List.takeWhile_append_dropWhile, List.reverse_reverse]
  refine okAfterB_append_nonword_right (trimTrail s) false
    ((s.reverse.takeWhile isCommaSpace).reverse) ?_ ?_
  · intro x hx
    exact isCommaSpace_nonword (List.mem_takeWhile_imp (List.mem_reverse.mp hx))
  · rw [hsplit]
    exact h

/-- `cleanPrompt` always returns text without a standalone "8k": the resolution
strip removes every occurrence and each later pass preserves the property. -/
theorem cleanPrompt_ok (s : List Char) : noStandalone8k (cleanPrompt s) = true := by
  unfold cleanPrompt noStandalone8k
  refine trimTrail_ok (trimLead_ok ?_)
  unfold runScan
  refine scan_preserves spaceM_ok spaceM_stable _ () false ?_
  refine scan_preserves commaM_ok commaM_stable _ () false ?_
  unfold stripFam runScan
  refine scan_preserves (stripM_ok (by decide)) (stripM_stable _) _ () false ?_
  refine scan_preserves (stripM_ok (by decide)) (stripM_stable _) _ () false ?_
  refine scan_preserves (stripM_ok (by decide)) (stripM_stable _) _ () false ?_
  refine scan_preserves (stripM_ok (by decide)) (stripM_stable _) _ () false ?_
  exact stripFam_res_ok s

/-! ### The subject and location replacement matchers are safe -/

theorem getLast?_append_ne {A B : List Char} (h : B ≠ []) :
    (A ++ B).getLast? = B.getLast? := by
  rw [List.getLast?_append]
  match hB : B.getLast? with
  | some y => rfl
  | none => exact absurd (List.getLast?_eq_none_iff.mp hB) h

/-- No token of the alternative can match an "8" (a literal other than `'8'`;
the `\d` class could). -/
def altNo8 : List PTok → Bool
  | [] => true
  | PTok.lit p :: ts => !(p == '8') && altNo8 ts
  | PTok.digit :: _ => false

theorem matchToks_no8 {a : List PTok} : ∀ (s r : List Char), matchToks a s = some r →
    altNo8 a = true → ∀ x ∈ s.take a.length, ¬ low x = '8' := by
  induction a with
  | nil => intro s r _ _ x hx; cases hx
  | cons t ts ih =>
    intro s r hm h8 x hx
    cases s with
    | nil => cases hm
    | cons c cs =>
      simp only [matchToks] at hm
      by_cases ht : tokMatches t c = true
      · rw [if_pos ht] at hm
        simp only [List.length_cons, List.take_succ_cons] at hx
        cases t with
        | lit p =>
          simp only [altNo8, Bool.and_eq_true] at h8
          rcases List.mem_cons.mp hx with h | h
          · subst h
            have hc : low x = p := by simpa [tokMatches] using ht
            intro hc8
            rw [hc8] at hc
            have : (p == '8') = false := by simpa using h8.1
            rw [beq_eq_false_iff_ne] at this
            exact this hc.symm
          · exact ih cs r hm h8.2 x h
        | digit => cases h8
      · rw [if_neg ht] at hm
        cases hm

theorem getD_mem {l : List (List Char)} {i : Nat} (h : i < l.length) :
    l.getD i [] ∈ l := by
  rw [List.getD_eq_getElem l [] h]
  exact List.getElem_mem h

theorem womanManM_stable : MatcherStable womanManM := by
  intro st c r _
  rfl

theorem personM_stable : MatcherStable personM := by
  intro st c r _
  rfl

theorem womanManM_ok : MatcherOK womanManM := by
  intro rng pw s n rep rng' hf
  unfold womanManM at hf
  by_cases hpw : pw = true
  · rw [if_pos hpw] at hf; cases hf
  · rw [if_neg hpw] at hf
    match hm2 : matchToks (toks "a ") s with
    | none => rw [hm2] at hf; cases hf
    | some r =>
      rw [hm2] at hf
      dsimp only at hf
      match hfa : firstAlt [toks "woman", toks "man"] r with
      | none => rw [hfa] at hf; cases hf
      | some m =>
        rw [hfa] at hf
        dsimp only at hf
        by_cases hla : lookaheadAny womanManLookahead (r.drop m) = true
        · rw [if_pos hla] at hf; cases hf
        · rw [if_neg hla] at hf
          simp only [draw] at hf
          rw [Option.some.injEq, Prod.mk.injEq, Prod.mk.injEq] at hf
          obtain ⟨h1, h2, _⟩ := hf
          subst h1
          subst h2
          obtain ⟨a, ha, hal, hmt, _⟩ := firstAlt_spec hfa
          have hsl := matchToks_length _ _ _ hm2
          rw [show (toks "a ").length = 2 from rfl] at hsl
          have hrl := matchToks_length _ _ _ hmt
          have hr2 := matchToks_drop _ _ _ hm2
          rw [show (toks "a ").length = 2 from rfl] at hr2
          have hmem : a = toks "woman" ∨ a = toks "man" := by
            rcases List.mem_cons.mp ha with h | h
            · exact Or.inl h
            · rcases List.mem_cons.mp h with h | h
              · exact Or.inr h
              · cases h
          have hage : subjAges.getD (rng.headD 0 % 5) [] ∈ subjAges :=
            getD_mem (Nat.mod_lt _ (by omega))
          have hdet : subjDetails.getD (rng.tail.headD 0 % 4) [] ∈ subjDetails :=
            getD_mem (Nat.mod_lt _ (by omega))
          refine ⟨⟨by omega, by omega⟩, ?_, ?_, ?_, ?_, ?_⟩
          · intro x hx
            rcases List.mem_append.mp hx with h | h
            · rcases List.mem_append.mp h with h | h
              · rcases List.mem_cons.mp h with h | h
                · subst h; decide
                · rcases List.mem_cons.mp h with h | h
                  · subst h; decide
                  · refine matchToks_no8 r (r.drop m) hmt ?_ x ?_
                    · rcases hmem with h2 | h2 <;> subst h2 <;> decide
                    · rw [hal]; exact h
              · rcases List.mem_cons.mp h with h | h
                · subst h; decide
                · have hall : subjAges.all
                      (fun mm => mm.all (fun x => !(low x == '8'))) = true := by decide
                  have := List.all_eq_true.mp
                    (List.all_eq_true.mp hall _ hage) x h
                  simpa using this
            · rcases List.mem_cons.mp h with h | h
              · subst h; decide
              · have hall : subjDetails.all
                    (fun mm => mm.all (fun x => !(low x == '8'))) = true := by decide
                have := List.all_eq_true.mp
                  (List.all_eq_true.mp hall _ hdet) x h
                simpa using this
          · intro x hx
            simp only [List.cons_append, List.head?_cons, Option.some.injEq] at hx
            subst hx
            decide
          · intro h0
            simp at h0
          · intro h0
            simp at h0
          · intro _
            rw [List.take_add, wlastB_append, ← hr2, ← hal,
              wlastB_matchToks r (r.drop m) _ hmt
                (by rcases hmem with h2 | h2 <;> subst h2 <;> decide)]
            have hdet' : (' ' :: subjDetails.getD (rng.tail.headD 0 % 4) []) ≠ [] := by simp
            rw [getLast?_append_ne hdet']
            have h4 : rng.tail.headD 0 % 4 < 4 := Nat.mod_lt _ (by omega)
            set k := rng.tail.headD 0 % 4 with hk
            interval_cases k <;> decide

/-- A phrase that can be inserted anywhere: non-empty, no "8", does not start
with a "k", ends in a word character. -/
def phraseSafe (m : List Char) : Bool :=
  !m.isEmpty && m.all (fun x => !(low x == '8')) &&
    (match m.head? with | some x => !(low x == 'k') | none => true) && wordOpt m.getLast?

theorem phraseSafe_spec {m : List Char} (h : phraseSafe m = true) :
    m ≠ [] ∧ (∀ x ∈ m, ¬ low x = '8') ∧ (∀ x, m.head? = some x → ¬ low x = 'k') ∧
    wordOpt m.getLast? = true := by
  unfold phraseSafe at h
  simp only [Bool.and_eq_true] at h
  obtain ⟨⟨⟨hne, h8⟩, hk⟩, hl⟩ := h
  refine ⟨?_, ?_, ?_, hl⟩
  · intro h0
    subst h0
    cases hne
  · intro x hx
    have := List.all_eq_true.mp h8 x hx
    simpa using this
  · intro x hx
    rw [hx] at hk
    simpa using hk

theorem personM_ok : MatcherOK personM := by
  intro rng pw s n rep rng' hf
  unfold personM at hf
  by_cases hpw : pw = true
  · rw [if_pos hpw] at hf; cases hf
  · rw [if_neg hpw] at hf
    match hm : matchToks (toks "a person") s with
    | none => rw [hm] at hf; cases hf
    | some r =>
      rw [hm] at hf
      dsimp only at hf
      by_cases hw : wordOpt r.head? = true
      · rw [if_pos hw] at hf; cases hf
      · rw [if_neg hw] at hf
        by_cases hla : lookaheadAny personLookahead r = true
        · rw [if_pos hla] at hf; cases hf
        · rw [if_neg hla] at hf
          simp only [draw] at hf
          rw [Option.some.injEq, Prod.mk.injEq, Prod.mk.injEq] at hf
          obtain ⟨h1, h2, _⟩ := hf
          subst h1
          subst h2
          have hsl := matchToks_length _ _ _ hm
          rw [show (toks "a person").length = 8 from rfl] at hsl
          have h5 : rng.headD 0 % 5 < 5 := Nat.mod_lt _ (by omega)
          have hwl : wlastB pw (s.take 8) = true :=
            wlastB_matchToks s r pw hm (by decide)
          obtain ⟨hne', h8', hk', hl'⟩ := phraseSafe_spec
            (List.all_eq_true.mp (show personTypes.all phraseSafe = true by decide)
              _ (getD_mem h5))
          refine ⟨⟨by omega, by omega⟩, h8', hk', ?_, ?_, ?_⟩
          · intro h0; exact absurd h0 hne'
          · intro h0; exact absurd h0 hne'
          · intro _
            rw [hwl]
            exact hl'

theorem locReplaceM_stable (alts : List (List PTok)) (rep : List Char) :
    MatcherStable (locReplaceM alts rep) := by
  intro st c r _
  rfl

theorem locReplaceM_ok {alts : List (List PTok)} {rep : List Char}
    (hne : ∀ a ∈ alts, a ≠ [])
    (hlast : ∀ a ∈ alts, altLastWord a = true)
    (hrep8 : ∀ x ∈ rep, ¬ low x = '8')
    (hrephead : ∀ x, rep.head? = some x → ¬ low x = 'k')
    (hrepne : rep ≠ [])
    (hreplast : wordOpt rep.getLast? = true) :
    MatcherOK (locReplaceM alts rep) := by
  intro st pw s n rep' st' hf
  unfold locReplaceM at hf
  by_cases hpw : pw = true
  · rw [if_pos hpw] at hf; cases hf
  · rw [if_neg hpw] at hf
    match hm : firstAlt alts s with
    | none => rw [hm] at hf; cases hf
    | some m =>
      rw [hm] at hf
      dsimp only at hf
      rw [Option.some.injEq, Prod.mk.injEq, Prod.mk.injEq] at hf
      obtain ⟨h1, h2, _⟩ := hf
      subst h1
      subst h2
      obtain ⟨a, ha, hal, hmt, _⟩ := firstAlt_spec hm
      have hsl := matchToks_length _ _ _ hmt
      have hm1 : 1 ≤ m := by
        rw [← hal]
        exact List.length_pos.mpr (hne a ha)
      refine ⟨⟨hm1, by omega⟩, hrep8, hrephead, ?_, ?_, ?_⟩
      · intro h0; exact absurd h0 hrepne
      · intro h0; exact absurd h0 hrepne
      · intro _
        rw [← hal, wlastB_matchToks s (s.drop m) pw hmt (hlast a ha)]
        exact hreplast

theorem enhanceSubject_ok {s : List Char} (rng : Rng) (h : okAfterB false s = true) :
    okAfterB false (enhanceSubject s rng).1 = true := by
  unfold enhanceSubject runScan
  exact scan_preserves personM_ok personM_stable _ _ false
    (scan_preserves womanManM_ok womanManM_stable _ _ false h)

theorem locStep_ok {generic : String} {specifics : List (List Char)} {s : List Char} {rng : Rng}
    {out : List Char × Rng}
    (hne : ∀ a ∈ locFamAlts generic, a ≠ [])
    (hlast : ∀ a ∈ locFamAlts generic, altLastWord a = true)
    (hspec : ∀ mm ∈ specifics, (∀ x ∈ mm, ¬ low x = '8') ∧ wordOpt mm.getLast? = true)
    (hlen : specifics.length = 3)
    (hs : okAfterB false s = true)
    (hstep : locStep generic specifics s rng = some out) :
    okAfterB false out.1 = true := by
  unfold locStep at hstep
  by_cases ht : famTest (locFamAlts generic) s = true
  · rw [if_pos ht] at hstep
    simp only [draw] at hstep
    rw [Option.some.injEq] at hstep
    subst hstep
    have hmem : specifics.getD (rng.headD 0 % 3) [] ∈ specifics :=
      getD_mem (by rw [hlen]; exact Nat.mod_lt _ (by omega))
    obtain ⟨h8, hlastw⟩ := hspec _ hmem
    have hspne : specifics.getD (rng.headD 0 % 3) [] ≠ [] := by
      intro h0
      rw [h0] at hlastw
      cases hlastw
    refine scan_preserves (locReplaceM_ok hne hlast ?_ ?_ ?_ ?_)
      (locReplaceM_stable _ _) s () false hs
    · intro x hx
      rcases List.mem_cons.mp hx with h | h
      · subst h; decide
      · rcases List.mem_cons.mp h with h | h
        · subst h; decide
        · rcases List.mem_cons.mp h with h | h
          · subst h; decide
          · exact h8 x h
    · intro x hx
      simp only [List.head?_cons, Option.some.injEq] at hx
      subst hx
      decide
    · simp
    · rw [show ('a' :: 't' :: ' ' :: specifics.getD (rng.headD 0 % 3) []) =
          ['a', 't', ' '] ++ specifics.getD (rng.headD 0 % 3) [] from rfl]
      rw [getLast?_append_ne hspne]
      exact hlastw
  · rw [if_neg ht] at hstep
    cases hstep

theorem enhanceLocation_ok {s : List Char} (rng : Rng) (h : okAfterB false s = true) :
    okAfterB false (enhanceLocation s rng).1 = true := by
  unfold enhanceLocation
  cases h1 : locStep "coffee shop" coffeeShopSpecifics s rng with
  | some r => exact locStep_ok (by decide) (by decide) (by decide) (by decide) h h1
  | none =>
    cases h2 : locStep "office" officeSpecifics s rng with
    | some r => exact locStep_ok (by decide) (by decide) (by decide) (by decide) h h2
    | none =>
      cases h3 : locStep "street" streetSpecifics s rng with
      | some r => exact locStep_ok (by decide) (by decide) (by decide) (by decide) h h3
      | none =>
        cases h4 : locStep "park" parkSpecifics s rng with
        | some r => exact locStep_ok (by decide) (by decide) (by decide) (by decide) h h4
        | none => exact h

/-! ### Every injected modifier phrase is harmless -/

/-- The phrase is stored in one of the fifteen vocabulary lists. -/
def inTables (m : List Char) (tb : Tables) : Prop :=
  m ∈ tb.camerasFilm ∨ m ∈ tb.camerasProfessional ∨ m ∈ tb.camerasModern ∨ m ∈ tb.lenses ∨
  m ∈ tb.lightingNatural ∨ m ∈ tb.lightingArtificial ∨ m ∈ tb.lightingMoody ∨
  m ∈ tb.imperfectionsFilm ∨ m ∈ tb.imperfectionsFocus ∨ m ∈ tb.imperfectionsPhysical ∨
  m ∈ tb.imperfectionsSurface ∨ m ∈ tb.humanDetails ∨ m ∈ tb.compositionNatural ∨
  m ∈ tb.compositionAngles ∨ m ∈ tb.compositionDistance

theorem inTables_camerasFilm {m : List Char} {tb : Tables} (h : m ∈ tb.camerasFilm) :
    inTables m tb := by unfold inTables; tauto

theorem inTables_camerasModern {m : List Char} {tb : Tables} (h : m ∈ tb.camerasModern) :
    inTables m tb := by unfold inTables; tauto

theorem inTables_lenses {m : List Char} {tb : Tables} (h : m ∈ tb.lenses) :
    inTables m tb := by unfold inTables; tauto

theorem inTables_lightingNatural {m : List Char} {tb : Tables} (h : m ∈ tb.lightingNatural) :
    inTables m tb := by unfold inTables; tauto

theorem inTables_lightingArtificial {m : List Char} {tb : Tables}
    (h : m ∈ tb.lightingArtificial) : inTables m tb := by unfold inTables; tauto

theorem inTables_lightingMoody {m : List Char} {tb : Tables} (h : m ∈ tb.lightingMoody) :
    inTables m tb := by unfold inTables; tauto

theorem inTables_imperfectionsFilm {m : List Char} {tb : Tables}
    (h : m ∈ tb.imperfectionsFilm) : inTables m tb := by unfold inTables; tauto

theorem inTables_imperfectionsFocus {m : List Char} {tb : Tables}
    (h : m ∈ tb.imperfectionsFocus) : inTables m tb := by unfold inTables; tauto

theorem inTables_imperfectionsSurface {m : List Char} {tb : Tables}
    (h : m ∈ tb.imperfectionsSurface) : inTables m tb := by unfold inTables; tauto

theorem inTables_humanDetails {m : List Char} {tb : Tables} (h : m ∈ tb.humanDetails) :
    inTables m tb := by unfold inTables; tauto

theorem inTables_compositionNatural {m : List Char} {tb : Tables}
    (h : m ∈ tb.compositionNatural) : inTables m tb := by unfold inTables; tauto

theorem inTables_of_perm {m : List Char} {tb tb' : Tables} (hp : TablesPerm tb tb')
    (h : inTables m tb) : inTables m tb' := by
  rcases h with h|h|h|h|h|h|h|h|h|h|h|h|h|h|h
  · exact Or.inl (hp.camerasFilm.mem_iff.mp h)
  · exact Or.inr (Or.inl (hp.camerasProfessional.mem_iff.mp h))
  · exact Or.inr (Or.inr (Or.inl (hp.camerasModern.mem_iff.mp h)))
  · exact Or.inr (Or.inr (Or.inr (Or.inl (hp.lenses.mem_iff.mp h))))
  · exact Or.inr (Or.inr (Or.inr (Or.inr (Or.inl (hp.lightingNatural.mem_iff.mp h)))))
  · exact Or.inr (Or.inr (Or.inr (Or.inr (Or.inr (Or.inl
      (hp.lightingArtificial.mem_iff.mp h))))))
  · exact Or.inr (Or.inr (Or.inr (Or.inr (Or.inr (Or.inr (Or.inl
      (hp.lightingMoody.mem_iff.mp h)))))))
  · exact Or.inr (Or.inr (Or.inr (Or.inr (Or.inr (Or.inr (Or.inr (Or.inl
      (hp.imperfectionsFilm.mem_iff.mp h))))))))
  · exact Or.inr (Or.inr (Or.inr (Or.inr (Or.inr (Or.inr (Or.inr (Or.inr (Or.inl
      (hp.imperfectionsFocus.mem_iff.mp h)))))))))
  · exact Or.inr (Or.inr (Or.inr (Or.inr (Or.inr (Or.inr (Or.inr (Or.inr (Or.inr (Or.inl
      (hp.imperfectionsPhysical.mem_iff.mp h))))))))))
  · exact Or.inr (Or.inr (Or.inr (Or.inr (Or.inr (Or.inr (Or.inr (Or.inr (Or.inr (Or.inr
      (Or.inl (hp.imperfectionsSurface.mem_iff.mp h)))))))))))
  · exact Or.inr (Or.inr (Or.inr (Or.inr (Or.inr (Or.inr (Or.inr (Or.inr (Or.inr (Or.inr
      (Or.inr (Or.inl (hp.humanDetails.mem_iff.mp h))))))))))))
  · exact Or.inr (Or.inr (Or.inr (Or.inr (Or.inr (Or.inr (Or.inr (Or.inr (Or.inr (Or.inr
      (Or.inr (Or.inr (Or.inl (hp.compositionNatural.mem_iff.mp h)))))))))))))
  · exact Or.inr (Or.inr (Or.inr (Or.inr (Or.inr (Or.inr (Or.inr (Or.inr (Or.inr (Or.inr
      (Or.inr (Or.inr (Or.inr (Or.inl (hp.compositionAngles.mem_iff.mp h))))))))))))))
  · exact Or.inr (Or.inr (Or.inr (Or.inr (Or.inr (Or.inr (Or.inr (Or.inr (Or.inr (Or.inr
      (Or.inr (Or.inr (Or.inr (Or.inr (hp.compositionDistance.mem_iff.mp h))))))))))))))

theorem inTables_ok {m : List Char} (h : inTables m TABLES0) : okAfterB false m = true := by
  rcases h with h|h|h|h|h|h|h|h|h|h|h|h|h|h|h
  · exact List.all_eq_true.mp
      (show CAMERAS_film.all (fun mm => okAfterB false mm) = true by decide) m h
  · exact List.all_eq_true.mp
      (show CAMERAS_professional.all (fun mm => okAfterB false mm) = true by decide) m h
  · exact List.all_eq_true.mp
      (show CAMERAS_modern.all (fun mm => okAfterB false mm) = true by decide) m h
  · exact List.all_eq_true.mp
      (show LENSES.all (fun mm => okAfterB false mm) = true by decide) m h
  · exact List.all_eq_true.mp
      (show LIGHTING_natural.all (fun mm => okAfterB false mm) = true by decide) m h
  · exact List.all_eq_true.mp
      (show LIGHTING_artificial.all (fun mm => okAfterB false mm) = true by decide) m h
  · exact List.all_eq_true.mp
      (show LIGHTING_moody.all (fun mm => okAfterB false mm) = true by decide) m h
  · exact List.all_eq_true.mp
      (show IMPERFECTIONS_film.all (fun mm => okAfterB false mm) = true by decide) m h
  · exact List.all_eq_true.mp
      (show IMPERFECTIONS_focus.all (fun mm => okAfterB false mm) = true by decide) m h
  · exact List.all_eq_true.mp
      (show IMPERFECTIONS_physical.all (fun mm => okAfterB false mm) = true by decide) m h
  · exact List.all_eq_true.mp
      (show IMPERFECTIONS_surface.all (fun mm => okAfterB false mm) = true by decide) m h
  · exact List.all_eq_true.mp
      (show HUMAN_DETAILS.all (fun mm => okAfterB false mm) = true by decide) m h
  · exact List.all_eq_true.mp
      (show COMPOSITION_natural.all (fun mm => okAfterB false mm) = true by decide) m h
  · exact List.all_eq_true.mp
      (show COMPOSITION_angles.all (fun mm => okAfterB false mm) = true by decide) m h
  · exact List.all_eq_true.mp
      (show COMPOSITION_distance.all (fun mm => okAfterB false mm) = true by decide) m h

theorem techCamera_mem {style : String} {rng : Rng} {tb : Tables} {m : List Char}
    (h : m ∈ (techCamera style rng tb).1) :
    m = [] ∨ m = "smartphone photo".data ∨ inTables m tb := by
  unfold techCamera at h
  by_cases h1 : style = "film"
  · rw [if_pos h1] at h
    simp only [List.mem_singleton] at h
    subst h
    cases hg : (getRandomModifiers tb.camerasFilm 1 rng).1 with
    | nil => left; rfl
    | cons x xs =>
      right; right
      exact inTables_camerasFilm (getRandomModifiers_sel_mem _ _ _ x
        (by rw [hg]; exact List.mem_cons_self _ _))
  · by_cases h2 : style = "digital"
    · rw [if_neg h1, if_pos h2] at h
      simp only [List.mem_singleton] at h
      subst h
      cases hg : (getRandomModifiers tb.camerasModern 1 rng).1 with
      | nil => left; rfl
      | cons x xs =>
        right; right
        exact inTables_camerasModern (getRandomModifiers_sel_mem _ _ _ x
          (by rw [hg]; exact List.mem_cons_self _ _))
    · rw [if_neg h1, if_neg h2] at h
      simp only [List.mem_singleton] at h
      subst h
      right; left; rfl

theorem techLens_mem {style : String} {acc : List (List Char) × Tables × Rng} {m : List Char}
    (h : m ∈ (techLens style acc).1) :
    m ∈ acc.1 ∨ m = [] ∨ inTables m acc.2.1 := by
  unfold techLens at h
  by_cases h1 : style ≠ "phone"
  · rw [if_pos h1] at h
    rcases List.mem_append.mp h with h | h
    · exact Or.inl h
    · simp only [List.mem_singleton] at h
      subst h
      cases hg : (getRandomModifiers acc.2.1.lenses 1 acc.2.2).1 with
      | nil => right; left; rfl
      | cons x xs =>
        right; right
        exact inTables_lenses (getRandomModifiers_sel_mem _ _ _ x
          (by rw [hg]; exact List.mem_cons_self _ _))
  · rw [if_neg h1] at h
    exact Or.inl h

theorem techLighting_mem {mood : String} {acc : List (List Char) × Tables × Rng} {m : List Char}
    (h : m ∈ (techLighting mood acc).1) :
    m ∈ acc.1 ∨ m = [] ∨ inTables m acc.2.1 := by
  unfold techLighting at h
  by_cases h1 : mood = "moody"
  · rw [if_pos h1] at h
    rcases List.mem_append.mp h with h | h
    · exact Or.inl h
    · simp only [List.mem_singleton] at h
      subst h
      cases hg : (getRandomModifiers acc.2.1.lightingMoody 1 acc.2.2).1 with
      | nil => right; left; rfl
      | cons x xs =>
        right; right
        exact inTables_lightingMoody (getRandomModifiers_sel_mem _ _ _ x
          (by rw [hg]; exact List.mem_cons_self _ _))
  · by_cases h2 : mood = "harsh"
    · rw [if_neg h1, if_pos h2] at h
      rcases List.mem_append.mp h with h | h
      · exact Or.inl h
      · simp only [List.mem_singleton] at h
        subst h
        cases hg : (getRandomModifiers acc.2.1.lightingArtificial 1 acc.2.2).1 with
        | nil => right; left; rfl
        | cons x xs =>
          right; right
          exact inTables_lightingArtificial (getRandomModifiers_sel_mem _ _ _ x
            (by rw [hg]; exact List.mem_cons_self _ _))
    · rw [if_neg h1, if_neg h2] at h
      rcases List.mem_append.mp h with h | h
      · exact Or.inl h
      · simp only [List.mem_singleton] at h
        subst h
        cases hg : (getRandomModifiers acc.2.1.lightingNatural 1 acc.2.2).1 with
        | nil => right; left; rfl
        | cons x xs =>
          right; right
          exact inTables_lightingNatural (getRandomModifiers_sel_mem _ _ _ x
            (by rw [hg]; exact List.mem_cons_self _ _))

theorem btm_mem {style mood : String} {rng : Rng} {tb : Tables} {m : List Char}
    (h : m ∈ (buildTechnicalModifiers style mood rng tb).1) :
    m = "smartphone photo".data ∨ inTables m tb := by
  unfold buildTechnicalModifiers at h
  have h0 := (List.mem_filter.mp h).1
  have hfe := (List.mem_filter.mp h).2
  rcases techLighting_mem h0 with h1 | h1 | h1
  · rcases techLens_mem h1 with h2 | h2 | h2
    · rcases techCamera_mem h2 with h3 | h3 | h3
      · subst h3; simp at hfe
      · exact Or.inl h3
      · exact Or.inr h3
    · subst h2; simp at hfe
    · exact Or.inr (inTables_of_perm (techCamera_tables_perm style rng tb) h2)
  · subst h1; simp at hfe
  · exact Or.inr (inTables_of_perm ((techLens_tables_perm style _).trans
      (techCamera_tables_perm style rng tb)) h1)

theorem bi_mem {intensity : String} {rng : Rng} {tb : Tables} {m : List Char}
    (h : m ∈ (buildImperfections intensity rng tb).1) : inTables m tb := by
  unfold buildImperfections at h
  by_cases h1 : intensity = "high"
  · simp only [h1, ite_true] at h
    norm_num at h
    rcases h with h | h | h
    · exact inTables_imperfectionsFilm (getRandomModifiers_sel_mem _ _ _ m h)
    · exact inTables_imperfectionsFocus (getRandomModifiers_sel_mem _ _ _ m h)
    · exact inTables_imperfectionsSurface (getRandomModifiers_sel_mem _ _ _ m h)
  · by_cases h2 : intensity = "low"
    · simp only [h1, h2, ite_false, ite_true] at h
      norm_num at h
      exact inTables_imperfectionsFilm (getRandomModifiers_sel_mem _ _ _ m h)
    · simp only [h1, h2, ite_false] at h
      norm_num at h
      rcases h with h | h
      · exact inTables_imperfectionsFilm (getRandomModifiers_sel_mem _ _ _ m h)
      · exact inTables_imperfectionsFocus (getRandomModifiers_sel_mem _ _ _ m h)

theorem hum_sel_mem {tb : Tables} {cN : List (List Char)} {c : Nat} {rng : Rng} {m : List Char}
    (h : m ∈ (getRandomModifiers ({ tb with compositionNatural := cN }).humanDetails c rng).1) :
    inTables m tb :=
  inTables_humanDetails (getRandomModifiers_sel_mem _ _ _ m h)

/-- C9: with `preserveOriginal` unset, the transformed prompt never contains a
standalone (word-bounded, case-insensitive) "8k": the resolution strip of
`cleanPrompt` removes every occurrence, no later pass can create one, and no
phrase of the vocabulary tables (in any shuffled order of the module state)
reintroduces one. -/
theorem transformPrompt_no_standalone_8k (p : List Char) (opts : TransformOptions) (env : TEnv)
    (hpo : opts.preserveOriginal = false) (htb : TablesPerm env.tables TABLES0) :
    noStandalone8k (transformPrompt p opts env).1.transformed = true := by
  unfold transformPrompt
  have hcleaned : (if opts.preserveOriginal then p else cleanPrompt p) = cleanPrompt p := by
    rw [hpo]
    rfl
  rw [hcleaned]
  dsimp only
  show okAfterB false _ = true
  refine okAfterB_intercalate _ _ ?_ ?_
  · exact enhanceLocation_ok _ (enhanceSubject_ok _ (cleanPrompt_ok p))
  · intro m hm
    have h0 := (List.mem_filter.mp hm).1
    rcases List.mem_append.mp h0 with h | h
    · rcases List.mem_append.mp h with h | h
      · rcases List.mem_append.mp h with h | h
        · rcases btm_mem h with h | h
          · subst h; decide
          · exact inTables_ok (inTables_of_perm htb h)
        · exact inTables_ok (inTables_of_perm htb (inTables_of_perm
            (buildTechnicalModifiers_tables_perm _ _ _ _) (bi_mem h)))
      · exact inTables_ok (inTables_of_perm htb (inTables_of_perm
          (buildTechnicalModifiers_tables_perm _ _ _ _)
          (inTables_of_perm (buildImperfections_tables_perm _ _ _)
            (inTables_compositionNatural (getRandomModifiers_sel_mem _ _ _ m h)))))
    · by_cases hh : hasHumanSubject p = true
      · rw [if_pos hh] at h
        exact inTables_ok (inTables_of_perm htb (inTables_of_perm
          (buildTechnicalModifiers_tables_perm _ _ _ _)
          (inTables_of_perm (buildImperfections_tables_perm _ _ _) (hum_sel_mem h))))
      · rw [if_neg hh] at h
        cases h

theorem transformPrompt_no_standalone_8k_witness :
    ({} : TransformOptions).preserveOriginal = false ∧
    noStandalone8k ("a photo, 8k".data) = false ∧
    noStandalone8k
      (transformPrompt ("a photo, 8k".data) {} ⟨[], TABLES0, rstate0⟩).1.transformed = true :=
  ⟨rfl, by decide,
   transformPrompt_no_standalone_8k ("a photo, 8k".data) {} ⟨[], TABLES0, rstate0⟩ rfl
     (TablesPerm.rfl TABLES0)⟩
